import Mathlib

set_option maxRecDepth 200000

/-!
Shallow embedding of the table-extract text-layout engine.

Sources embedded:
- src/attribute.py   (CssParse: style parsing and application)
- src/tags/table.py  (TableCell, TableRow, Table and the two-phase layout)

Python strings are modelled as lists of characters (`Str`), Python ints as
`Int`/`Nat`, Python floats as exact rationals together with an explicit
infinity case produced by overflow in float() parsing, and Python exceptions
as `Except` errors.  Enumerations and the element record that live in
repository modules not present under src (html_properties.py,
html_element.py, canvas.py) are modelled from the spec and carry a doc
comment saying so.
-/

/-- Python strings, modelled as lists of characters. -/
abbrev Str := List Char

/-- Characters removed by the Python str.strip() method (ASCII whitespace). -/
def py_isspace (c : Char) : Bool :=
  c == ' ' || c == '\t' || c == '\n' || c == '\r' || c == '\x0b' || c == '\x0c'

/-- Python str.strip(): drop whitespace from both ends. -/
def py_strip (s : Str) : Str :=
  ((s.dropWhile py_isspace).reverse.dropWhile py_isspace).reverse

/-- Python str.lower(), restricted to the ASCII letters that the recognized
property names and keyword values use. -/
def py_lower (s : Str) : Str := s.map Char.toLower

/-- Python str.split(sep) for a one-character separator: always returns at
least one piece, and empty pieces between adjacent separators. -/
def split_char (sep : Char) : Str → List Str
  | [] => [[]]
  | c :: rest =>
    if c = sep then [] :: split_char sep rest
    else
      match split_char sep rest with
      | [] => [[c]]
      | s :: ss => (c :: s) :: ss

/-- Python str.split(sep, 1): split at the first occurrence of sep, keeping
the remainder (later separators included) as the second piece.  Only used
after checking that sep occurs in the string. -/
def split_first (sep : Char) (s : Str) : Str × Str :=
  match split_char sep s with
  | [] => (s, [])
  | k :: rest => (k, List.intercalate [sep] rest)

/-- Python str.replace("-webkit-", ""): remove every occurrence, scanning
left to right. -/
def strip_webkit : Str → Str
  | '-' :: 'w' :: 'e' :: 'b' :: 'k' :: 'i' :: 't' :: '-' :: rest => strip_webkit rest
  | c :: rest => c :: strip_webkit rest
  | [] => []

/-- Python str.replace("-", "_"): a one-character replacement is a map. -/
def dash_to_underscore (s : Str) : Str :=
  s.map (fun c => if c = '-' then '_' else c)

/-!  The regular expression RE_UNIT = (-?[0-9.]+)(\w+) from src/attribute.py,
modelled directly: leftmost match, greedy numeric group with backtracking so
that the word group gets at least one character.  The word class is modelled
over ASCII. -/

/-- Character class [0-9.] of RE_UNIT. -/
def is_num_char (c : Char) : Bool := c.isDigit || c == '.'

/-- Character class of the regex word escape, over ASCII. -/
def is_word_char (c : Char) : Bool := c.isAlphanum || c == '_'

/-- Backtracking for RE_UNIT at a fixed start: the numeric group greedily
took the run of [0-9.] characters; give characters back one at a time until
the word group can match at least one character.  The argument k is the
candidate length of the numeric group. -/
def unit_backtrack (run rest : Str) : Nat → Option (Str × Str)
  | 0 => Option.none
  | k + 1 =>
    let tail := run.drop (k + 1) ++ rest
    let unit := tail.takeWhile is_word_char
    if unit.isEmpty then unit_backtrack run rest k
    else some (run.take (k + 1), unit)

/-- Match [0-9.]+ followed by at least one word character at the start of cs,
returning the numeric group and the (greedy) word group. -/
def match_num_word (cs : Str) : Option (Str × Str) :=
  let run := cs.takeWhile is_num_char
  if run.isEmpty then Option.none
  else unit_backtrack run (cs.drop run.length) run.length

/-- Match RE_UNIT at the start of cs: the optional sign is tried greedily
first; if no numeric run follows the sign the sign position cannot match at
all (a dash is not in [0-9.]). -/
def re_unit_match_at (cs : Str) : Option (Str × Str) :=
  match cs with
  | '-' :: rest =>
    (match match_num_word rest with
     | some (num, unit) => some ('-' :: num, unit)
     | Option.none => Option.none)
  | _ => match_num_word cs

/-- RE_UNIT.search: try every start position from the left and return the
captured (number, unit) groups of the first match. -/
def re_unit_search : Str → Option (Str × Str)
  | [] => Option.none
  | c :: rest =>
    match re_unit_match_at (c :: rest) with
    | some r => some r
    | Option.none => re_unit_search rest

/-!  Python float() on the numeric group, modelled exactly for the strings
the regex can produce (digits and dots, with an optional leading dash).
Finite values are exact rationals; parsed magnitudes at or beyond the
double-precision overflow threshold give infinity, which Python float()
returns silently.  The decimal-to-double rounding of representable finite
values is modelled as the exact rational, which agrees with the code on all
arguments whose decimal literal is exactly representable or whose rounding
does not cross an integer-half boundary. -/

/-- Value of a digit string. -/
def digitsToNat (ds : Str) : Nat :=
  ds.foldl (fun a c => 10 * a + (c.toNat - 48)) 0

/-- Parse an unsigned run of digits and dots the way float() does: more than
one dot, or no digit at all, is a ValueError (modelled as none). -/
def decimal_core (cs : Str) : Option ℚ :=
  match split_char '.' cs with
  | [intp] => if intp.isEmpty then Option.none else some (digitsToNat intp)
  | [intp, fracp] =>
    if intp.isEmpty && fracp.isEmpty then Option.none
    else some ((digitsToNat intp : ℚ) + (digitsToNat fracp : ℚ) / (10 : ℚ) ^ fracp.length)
  | _ => Option.none

/-- Smallest decimal magnitude that float() turns into infinity: the midpoint
between the largest finite double and 2^1024 rounds up under ties-to-even. -/
def FLOAT_OVERFLOW_BOUND : ℚ := ((2 ^ 1024 - 2 ^ 970 : Nat) : ℚ)

/-- Python float() on a RE_UNIT numeric group.  Outer none is a ValueError;
some none is an infinity (overflow); some (some v) is the finite value. -/
def py_float_parse (cs : Str) : Option (Option ℚ) :=
  match cs with
  | '-' :: rest =>
    (decimal_core rest).map
      (fun q => if FLOAT_OVERFLOW_BOUND ≤ q then Option.none else some (-q))
  | _ =>
    (decimal_core cs).map
      (fun q => if FLOAT_OVERFLOW_BOUND ≤ q then Option.none else some q)

/-- Python round() on a finite value: nearest integer, ties to even. -/
def py_round (q : ℚ) : ℤ :=
  let f := ⌊q⌋
  let r := q - f
  if r < 1 / 2 then f
  else if 1 / 2 < r then f + 1
  else if f % 2 = 0 then f else f + 1

/-- Modelled from the spec: rounding with ties away from zero, the tie rule
the spec ascribes to length parsing; kept for comparison with py_round. -/
def round_half_away (q : ℚ) : ℤ :=
  if 0 ≤ q then ⌊q + 1 / 2⌋ else -⌊-q + 1 / 2⌋

/-!  Style records.  html_properties.py and html_element.py are repository
modules not present under src; the enumerations and the element record are
modelled from the data-model section of the spec. -/

/-- Modelled from the spec: the display states of an element. -/
inductive Display where
  | inline
  | block
  | none
deriving DecidableEq

/-- Modelled from the spec: the whitespace modes of an element. -/
inductive WhiteSpace where
  | normal
  | pre
deriving DecidableEq

/-- Modelled from the spec: horizontal alignment; left pads on the right,
right pads on the left, center splits the padding. -/
inductive HorizontalAlignment where
  | left
  | right
  | center
deriving DecidableEq

/-- Modelled from the spec: vertical alignment of cell content. -/
inductive VerticalAlignment where
  | top
  | middle
  | bottom
deriving DecidableEq

/-- Modelled from the spec: the element style record with the fields that
src/attribute.py mutates. -/
structure HtmlElement where
  display : Display
  whitespace : WhiteSpace
  align : HorizontalAlignment
  valign : VerticalAlignment
  margin_before : Int
  margin_after : Int
  padding_inline : Int
deriving DecidableEq

/-- A concrete element used by witnesses. -/
def default_element : HtmlElement :=
  { display := Display.inline, whitespace := WhiteSpace.normal,
    align := HorizontalAlignment.left, valign := VerticalAlignment.top,
    margin_before := 0, margin_after := 0, padding_inline := 0 }

/-- Python exceptions that the embedded code can raise. -/
inductive PyError where
  | attributeError
  | valueError
  | overflowError
deriving DecidableEq

deriving instance DecidableEq for Except

/-- The em-family units of CssParse._get_em. -/
def EM_UNITS : List Str := ["em".data, "qem".data, "rem".data]

/-- CssParse._get_em: regex-extract value and unit; a failed search raises
AttributeError (None.group), a malformed numeral raises ValueError in
float(), an infinite value raises OverflowError in round(); em-family units
round the value, other units round value / 8. -/
def get_em (len : Str) : Except PyError Int :=
  match re_unit_search len with
  | Option.none => .error .attributeError
  | some (num, unit) =>
    match py_float_parse num with
    | Option.none => .error .valueError
    | some Option.none => .error .overflowError
    | some (some v) =>
      if unit ∈ EM_UNITS then .ok (py_round v)
      else .ok (py_round (v / 8))

/-- CssParse.attr_display: display none is never overwritten; block and none
map to themselves, anything else to inline. -/
def attr_display (value : Str) (e : HtmlElement) : HtmlElement :=
  if e.display = Display.none then e
  else if value = "block".data then { e with display := Display.block }
  else if value = "none".data then { e with display := Display.none }
  else { e with display := Display.inline }

/-- CssParse.attr_white_space. -/
def attr_white_space (value : Str) (e : HtmlElement) : HtmlElement :=
  if value = "normal".data ∨ value = "nowrap".data then
    { e with whitespace := WhiteSpace.normal }
  else if value = "pre".data ∨ value = "pre-line".data ∨ value = "pre-wrap".data then
    { e with whitespace := WhiteSpace.pre }
  else e

/-- CssParse.attr_margin_top: suppress(ValueError) keeps the field on a
malformed numeral; AttributeError and OverflowError escape to the caller. -/
def attr_margin_top (value : Str) (e : HtmlElement) : Except PyError HtmlElement :=
  match get_em value with
  | .ok n => .ok { e with margin_before := n }
  | .error .valueError => .ok e
  | .error err => .error err

/-- CssParse.attr_margin_bottom, same suppression policy. -/
def attr_margin_bottom (value : Str) (e : HtmlElement) : Except PyError HtmlElement :=
  match get_em value with
  | .ok n => .ok { e with margin_after := n }
  | .error .valueError => .ok e
  | .error err => .error err

/-- CssParse.attr_padding_left, same suppression policy. -/
def attr_padding_left (value : Str) (e : HtmlElement) : Except PyError HtmlElement :=
  match get_em value with
  | .ok n => .ok { e with padding_inline := n }
  | .error .valueError => .ok e
  | .error err => .error err

/-- CssParse.attr_horizontal_align: enum lookup by member name with
suppress(KeyError); member names modelled from the spec alignments. -/
def attr_horizontal_align (value : Str) (e : HtmlElement) : HtmlElement :=
  if value = "left".data then { e with align := HorizontalAlignment.left }
  else if value = "right".data then { e with align := HorizontalAlignment.right }
  else if value = "center".data then { e with align := HorizontalAlignment.center }
  else e

/-- CssParse.attr_vertical_align: enum lookup by member name with
suppress(KeyError); member names modelled from the spec alignments. -/
def attr_vertical_align (value : Str) (e : HtmlElement) : HtmlElement :=
  if value = "top".data then { e with valign := VerticalAlignment.top }
  else if value = "middle".data then { e with valign := VerticalAlignment.middle }
  else if value = "bottom".data then { e with valign := VerticalAlignment.bottom }
  else e

/-- The attr_-prefixed callables of the CssParse class that getattr can find,
including attr_style itself and the three registered aliases. -/
inductive StyleHandler where
  | style
  | display
  | white_space
  | margin_top
  | margin_bottom
  | padding_left
  | horizontal_align
  | vertical_align
deriving DecidableEq

/-- getattr(CssParse, "attr_" + key.replace("-webkit-", "").replace("-", "_")):
none models the AttributeError for an unknown name.  The aliases
margin_before, margin_after and padding_start resolve to the shared
handlers exactly as the class-body assignments do. -/
def lookup_handler (key : Str) : Option StyleHandler :=
  let name := dash_to_underscore (strip_webkit key)
  if name = "style".data then some StyleHandler.style
  else if name = "display".data then some StyleHandler.display
  else if name = "white_space".data then some StyleHandler.white_space
  else if name = "margin_top".data ∨ name = "margin_before".data then some StyleHandler.margin_top
  else if name = "margin_bottom".data ∨ name = "margin_after".data then some StyleHandler.margin_bottom
  else if name = "padding_left".data ∨ name = "padding_start".data then some StyleHandler.padding_left
  else if name = "horizontal_align".data then some StyleHandler.horizontal_align
  else if name = "vertical_align".data then some StyleHandler.vertical_align
  else Option.none

/-- Run one resolved handler; sub interprets a nested style attribute (the
recursive attr_style call that getattr dispatch makes possible). -/
def run_handler (sub : Str → HtmlElement → Except PyError HtmlElement)
    (h : StyleHandler) (value : Str) (e : HtmlElement) : Except PyError HtmlElement :=
  match h with
  | StyleHandler.style => sub value e
  | StyleHandler.display => .ok (attr_display value e)
  | StyleHandler.white_space => .ok (attr_white_space value e)
  | StyleHandler.margin_top => attr_margin_top value e
  | StyleHandler.margin_bottom => attr_margin_bottom value e
  | StyleHandler.padding_left => attr_padding_left value e
  | StyleHandler.horizontal_align => .ok (attr_horizontal_align value e)
  | StyleHandler.vertical_align => .ok (attr_vertical_align value e)

/-- One iteration of the attr_style loop: skip a directive without a colon,
split at the first colon, strip both parts, dispatch; the enclosing
try/except turns an AttributeError (unknown name, or a failed regex search
inside a length handler) into a skip. -/
def do_directive (sub : Str → HtmlElement → Except PyError HtmlElement)
    (d : Str) (e : HtmlElement) : Except PyError HtmlElement :=
  if ':' ∈ d then
    let kv := split_first ':' d
    let key := py_strip kv.1
    let value := py_strip kv.2
    match lookup_handler key with
    | Option.none => .ok e
    | some h =>
      match run_handler sub h value e with
      | .error .attributeError => .ok e
      | r => r
  else .ok e

/-- The attr_style loop over the semicolon-separated directives; an uncaught
exception aborts the remaining directives exactly as in Python. -/
def run_directives (sub : Str → HtmlElement → Except PyError HtmlElement) :
    List Str → HtmlElement → Except PyError HtmlElement
  | [], e => .ok e
  | d :: ds, e =>
    match do_directive sub d e with
    | .ok e2 => run_directives sub ds e2
    | .error err => .error err

/-- CssParse.attr_style with a fuel bound on the nesting depth of style
directives dispatched back to attr_style itself; every recursive call
shrinks the string strictly, so fuel = length + 1 is never exhausted. -/
def attr_style_fuel : Nat → Str → HtmlElement → Except PyError HtmlElement
  | 0, _, e => .ok e
  | f + 1, s, e =>
    run_directives (fun s2 e2 => attr_style_fuel f s2 e2)
      (split_char ';' (py_lower s)) e

/-- CssParse.attr_style entry point. -/
def attr_style (s : Str) (e : HtmlElement) : Except PyError HtmlElement :=
  attr_style_fuel (s.length + 1) s e

/-!  The table geometry engine from src/tags/table.py.  TableCell extends the
Canvas buffer; canvas.py is a repository module not present under src, so the
pending inline buffer and its flush are modelled from the spec section on the
Canvas Buffer. -/

/-- src/tags/table.py TableCell.  blocks and the pending inline buffer come
from the Canvas base class; width0 models the _width slot (None initially),
line_width and vertical_padding are the bookkeeping slots of the source. -/
structure TableCell where
  align : HorizontalAlignment
  valign : VerticalAlignment
  blocks : List Str
  pending : Str
  width0 : Option Nat
  line_width : Option (List Nat)
  vertical_padding : Nat
deriving DecidableEq

/-- Modelled from the spec: Canvas.flush_inline seals the pending buffer into
a new completed block and is a no-op when the pending buffer is empty. -/
def TableCell.flush_inline (c : TableCell) : TableCell :=
  if c.pending.isEmpty then c
  else { c with blocks := c.blocks ++ [c.pending], pending := [] }

/-- TableCell.normalize_blocks: flush, split every block on embedded line
breaks, replace an empty block list by one empty line, return the new cell
together with its line count (Python mutates and returns the count). -/
def TableCell.normalize_blocks (c : TableCell) : TableCell × Nat :=
  let c1 := c.flush_inline
  let bs0 := (c1.blocks.map (split_char '\n')).flatten
  let bs := if bs0.isEmpty then [([] : Str)] else bs0
  ({ c1 with blocks := bs }, bs.length)

/-- The lines the width getter measures: every block split on embedded line
breaks, even before normalization. -/
def TableCell.cell_lines (c : TableCell) : List Str :=
  (c.blocks.map (split_char '\n')).flatten

/-- Python max() over a list, which raises ValueError on an empty one. -/
def py_max (l : List Nat) : Option Nat :=
  match l with
  | [] => Option.none
  | x :: xs => some (xs.foldl Nat.max x)

/-- TableCell.width getter.  The source tests the slot with `if self._width:`
so a stored zero, like a stored None, falls through to the measurement; none
models the ValueError that max() raises on a cell without blocks. -/
def TableCell.width_get (c : TableCell) : Option Nat :=
  if c.width0.getD 0 ≠ 0 then c.width0
  else py_max (c.cell_lines.map List.length)

/-- One space character repeated. -/
def spaces (n : Nat) : Str := List.replicate n ' '

/-- Python format(value, spec) for a string with an alignment and a width:
pads with spaces up to the width and never truncates; center puts the odd
space on the right. -/
def pad_block (a : HorizontalAlignment) (w : Nat) (s : Str) : Str :=
  if w ≤ s.length then s
  else
    match a with
    | HorizontalAlignment.left => s ++ spaces (w - s.length)
    | HorizontalAlignment.right => spaces (w - s.length) ++ s
    | HorizontalAlignment.center =>
      spaces ((w - s.length) / 2) ++ s ++ spaces ((w - s.length) - (w - s.length) / 2)

/-- TableCell.width setter: record the original block lengths, store the new
width, reformat every block with the horizontal alignment. -/
def TableCell.width_set (c : TableCell) (w : Nat) : TableCell :=
  { c with
    line_width := some (c.blocks.map List.length),
    width0 := some w,
    blocks := c.blocks.map (pad_block c.align w) }

/-- TableCell.height setter: grow only; missing lines are distributed by the
vertical alignment (all before for bottom, split with the extra line after
for middle, all after otherwise). -/
def TableCell.height_set (c : TableCell) (h : Nat) : TableCell :=
  let rows := c.blocks.length
  if rows < h then
    match c.valign with
    | VerticalAlignment.bottom =>
      { c with vertical_padding := h - rows,
               blocks := List.replicate (h - rows) [] ++ c.blocks }
    | VerticalAlignment.middle =>
      { c with vertical_padding := (h - rows) / 2,
               blocks := List.replicate ((h - rows) / 2) [] ++ c.blocks
                           ++ List.replicate ((h - rows + 1) / 2) [] }
    | VerticalAlignment.top =>
      { c with blocks := c.blocks ++ List.replicate (h - rows) [] }
  else c

/-- src/tags/table.py TableRow. -/
structure TableRow where
  columns : List TableCell
  cell_separator : Str
deriving DecidableEq

/-- Length of the truncating zip over the block lists of a row: zero when
there are no cells, otherwise the least list length. -/
def pyzip_len (ls : List (List Str)) : Nat :=
  match ls with
  | [] => 0
  | l :: rest => rest.foldl (fun m x => Nat.min m x.length) l.length

/-- Python zip(*lists): transpose truncated to the shortest list; for
index i below the zip length every list has a real element, so the default
of getD is never produced. -/
def pyzip (ls : List (List Str)) : List (List Str) :=
  (List.range (pyzip_len ls)).map (fun i => ls.map (fun l => l.getD i []))

/-- TableRow.get_text: zip the cells by line index, join each rank with the
separator, join the resulting lines with a line break. -/
def TableRow.get_text (r : TableRow) : Str :=
  List.intercalate ['\n']
    ((pyzip (r.columns.map TableCell.blocks)).map
      (fun line => List.intercalate r.cell_separator line))

/-- The body of the Table._set_row_height loop for one row: normalize every
cell, take the maximum resulting line count (zero for a row without cells),
grow every cell of the row to it. -/
def TableRow.set_height (r : TableRow) : TableRow :=
  let normed := r.columns.map TableCell.normalize_blocks
  let h := (normed.map Prod.snd).foldl Nat.max 0
  { r with columns := normed.map (fun p => p.1.height_set h) }

/-- src/tags/table.py Table. -/
structure Table where
  rows : List TableRow
  left_margin_len : Nat
  cell_separator : Str
deriving DecidableEq

/-- Table.add_row: append an empty row carrying the table separator. -/
def Table.add_row (t : Table) : Table :=
  { t with rows := t.rows ++ [{ columns := [], cell_separator := t.cell_separator }] }

/-- Table.add_cell: append to the last row, creating one first if none
exists. -/
def Table.add_cell (t : Table) (c : TableCell) : Table :=
  match (t.rows.getLast?) with
  | Option.none =>
    { t with rows := [{ columns := [c], cell_separator := t.cell_separator }] }
  | some last =>
    { t with rows := t.rows.dropLast ++ [{ last with columns := last.columns ++ [c] }] }

/-- Table._set_row_height: process every row independently. -/
def Table.set_row_height (t : Table) : Table :=
  { t with rows := t.rows.map TableRow.set_height }

/-- The largest cell count among the rows (the source takes max() of a
nonempty sequence; for naturals that maximum equals this fold). -/
def Table.max_columns (t : Table) : Nat :=
  (t.rows.map (fun r => r.columns.length)).foldl Nat.max 0

/-- The required width of column j: the maximum width among the cells present
at index j across all rows; rows without a cell at j contribute nothing.  In
the rendering pipeline every queried cell has at least one block, so the
width getter never raises and the bind never skips; max() of the nonempty
sequence of naturals equals the fold from 0. -/
def Table.col_width (t : Table) (j : Nat) : Nat :=
  (t.rows.filterMap (fun r => r.columns[j]?.bind TableCell.width_get)).foldl Nat.max 0

/-- Replace the element at one index, leaving every other element and the
length unchanged. -/
def update_at (j : Nat) (f : TableCell → TableCell) : List TableCell → List TableCell
  | [] => []
  | c :: cs =>
    match j with
    | 0 => f c :: cs
    | Nat.succ j2 => c :: update_at j2 f cs

/-- One iteration of the Table._set_column_width loop: compute the column
width of column j on the current table, then set it on every present cell at
index j. -/
def Table.set_col_step (t : Table) (j : Nat) : Table :=
  let w := t.col_width j
  { t with rows := t.rows.map (fun r =>
      { r with columns := update_at j (fun c => c.width_set w) r.columns }) }

/-- Table._set_column_width: the column loop over 0..max_columns. -/
def Table.set_column_width (t : Table) : Table :=
  (List.range t.max_columns).foldl Table.set_col_step t

/-- The two layout passes that Table.get_text runs before rendering. -/
def Table.layout (t : Table) : Table :=
  t.set_row_height.set_column_width

/-- Table.get_text: a table without rows renders as one line break; otherwise
run both passes and join the row texts with line breaks plus a trailing
one. -/
def Table.get_text (t : Table) : Str :=
  if t.rows.isEmpty then ['\n']
  else List.intercalate ['\n'] (t.layout.rows.map TableRow.get_text) ++ ['\n']

/-- The table state left behind by Table.get_text (Python mutates the table
in place; a second call starts from this state). -/
def Table.get_text_state (t : Table) : Table :=
  if t.rows.isEmpty then t else t.layout

/-- The cell of t at row i, column j, when present. -/
def Table.tcell (t : Table) (i j : Nat) : Option TableCell :=
  t.rows[i]?.bind (fun r => r.columns[j]?)

/-- A cell in the state the row-height pass establishes: nothing pending,
at least one block, and no embedded line break in any block. -/
def CellNormed (c : TableCell) : Prop :=
  c.pending = [] ∧ c.blocks ≠ [] ∧ ∀ b ∈ c.blocks, '\n' ∉ b

/-!  Concrete inputs used by witness and counterexample theorems. -/

/-- A one-line middle-aligned cell. -/
def c2w_cell : TableCell :=
  { align := HorizontalAlignment.left, valign := VerticalAlignment.middle,
    blocks := [['h', 'i']], pending := [], width0 := Option.none,
    line_width := Option.none, vertical_padding := 0 }

/-- A one-line cell of width 2 with no explicit width. -/
def c10_cell : TableCell :=
  { align := HorizontalAlignment.left, valign := VerticalAlignment.top,
    blocks := [['a', 'b']], pending := [], width0 := Option.none,
    line_width := Option.none, vertical_padding := 0 }

/-- A row of two 2-line cells. -/
def c3w_row : TableRow :=
  { columns :=
      [{ align := HorizontalAlignment.left, valign := VerticalAlignment.top,
         blocks := [['a'], ['b']], pending := [], width0 := Option.none,
         line_width := Option.none, vertical_padding := 0 },
       { align := HorizontalAlignment.left, valign := VerticalAlignment.top,
         blocks := [['c'], ['d']], pending := [], width0 := Option.none,
         line_width := Option.none, vertical_padding := 0 }],
    cell_separator := ['|'] }

/-- A ragged two-row table: two cells above, one below. -/
def c1w_table : Table :=
  { rows :=
      [{ columns :=
           [{ align := HorizontalAlignment.left, valign := VerticalAlignment.top,
              blocks := [['a']], pending := [], width0 := Option.none,
              line_width := Option.none, vertical_padding := 0 },
            { align := HorizontalAlignment.left, valign := VerticalAlignment.top,
              blocks := [['b', 'b']], pending := [], width0 := Option.none,
              line_width := Option.none, vertical_padding := 0 }],
         cell_separator := ['|'] },
       { columns :=
           [{ align := HorizontalAlignment.left, valign := VerticalAlignment.top,
              blocks := [['c', 'c', 'c']], pending := [], width0 := Option.none,
              line_width := Option.none, vertical_padding := 0 }],
         cell_separator := ['|'] }],
    left_margin_len := 0, cell_separator := ['|'] }

/-- A table with no rows. -/
def c4_empty_table : Table :=
  { rows := [], left_margin_len := 0, cell_separator := ['|'] }

/-- A one-row, one-cell table. -/
def c4w_table : Table :=
  { rows :=
      [{ columns :=
           [{ align := HorizontalAlignment.left, valign := VerticalAlignment.top,
              blocks := [['x']], pending := [], width0 := Option.none,
              line_width := Option.none, vertical_padding := 0 }],
         cell_separator := ['|'] }],
    left_margin_len := 0, cell_separator := ['|'] }

/-- A margin-top directive whose numeral exceeds the double range. -/
def c7_overflow_attr : Str :=
  "margin-top:".data ++ List.replicate 330 '9' ++ "px".data

/-!  Helper lemmas: splitting, padding and fold bounds. -/

theorem split_char_ne_nil (sep : Char) (s : Str) : split_char sep s ≠ [] := by
  induction s with
  | nil => simp [split_char]
  | cons c rest ih =>
    simp only [split_char]
    split
    · simp
    · cases h : split_char sep rest with
      | nil => simp
      | cons a as => simp

theorem split_char_of_not_mem (sep : Char) (s : Str) (h : sep ∉ s) :
    split_char sep s = [s] := by
  induction s with
  | nil => simp [split_char]
  | cons c rest ih =>
    simp only [List.mem_cons, not_or] at h
    have hne : ¬ c = sep := fun hc => h.1 hc.symm
    simp only [split_char, if_neg hne, ih h.2]

theorem mem_split_char_not_mem (sep : Char) (s : Str) :
    ∀ t ∈ split_char sep s, sep ∉ t := by
  induction s with
  | nil => intro t ht; simp [split_char] at ht; simp [ht]
  | cons c rest ih =>
    intro t ht
    simp only [split_char] at ht
    by_cases hc : c = sep
    · rw [if_pos hc] at ht
      rcases List.mem_cons.mp ht with h1 | h1
      · simp [h1]
      · exact ih t h1
    · rw [if_neg hc] at ht
      cases hsp : split_char sep rest with
      | nil => exact absurd hsp (split_char_ne_nil sep rest)
      | cons a as =>
        rw [hsp] at ht
        rcases List.mem_cons.mp ht with h1 | h1
        · subst h1
          intro hmem
          rcases List.mem_cons.mp hmem with h2 | h2
          · exact hc h2.symm
          · exact ih a (by simp [hsp]) h2
        · exact ih t (by simp [hsp, h1])

theorem pad_block_of_le (a : HorizontalAlignment) (w : Nat) (s : Str)
    (h : w ≤ s.length) : pad_block a w s = s := by
  simp [pad_block, h]

theorem pad_block_length (a : HorizontalAlignment) (w : Nat) (s : Str) :
    (pad_block a w s).length = if w ≤ s.length then s.length else w := by
  by_cases h : w ≤ s.length
  · rw [pad_block_of_le a w s h, if_pos h]
  · rw [if_neg h]
    simp only [pad_block, if_neg h]
    cases a <;> simp [spaces] <;> omega

theorem pad_block_mem (a : HorizontalAlignment) (w : Nat) (s : Str) (c : Char)
    (h : c ∈ pad_block a w s) : c ∈ s ∨ c = ' ' := by
  by_cases hle : w ≤ s.length
  · rw [pad_block_of_le a w s hle] at h
    exact Or.inl h
  · simp only [pad_block, if_neg hle] at h
    cases a <;> simp only [List.mem_append, spaces] at h <;>
      rcases h with h | h <;>
      first
      | exact Or.inl h
      | exact Or.inr (List.eq_of_mem_replicate h)
      | (rcases h with h | h
         · exact Or.inr (List.eq_of_mem_replicate h)
         · exact Or.inl h)

theorem init_le_foldl_max (l : List Nat) (a : Nat) : a ≤ l.foldl Nat.max a := by
  induction l generalizing a with
  | nil => simp
  | cons y ys ih =>
    simp only [List.foldl_cons]
    exact le_trans (Nat.le_max_left a y) (ih (Nat.max a y))

theorem le_foldl_max (l : List Nat) (a x : Nat) (hx : x ∈ l) :
    x ≤ l.foldl Nat.max a := by
  induction l generalizing a with
  | nil => cases hx
  | cons y ys ih =>
    simp only [List.foldl_cons]
    rcases List.mem_cons.mp hx with h | h
    · subst h
      exact le_trans (Nat.le_max_right a x) (init_le_foldl_max ys (Nat.max a x))
    · exact ih (Nat.max a y) h

theorem foldl_max_mem (l : List Nat) (a : Nat) : l.foldl Nat.max a ∈ a :: l := by
  induction l generalizing a with
  | nil => simp
  | cons y ys ih =>
    simp only [List.foldl_cons]
    rcases List.mem_cons.mp (ih (Nat.max a y)) with h | h
    · have hm : Nat.max a y = a ∨ Nat.max a y = y := max_choice a y
      rcases hm with hm | hm <;> rw [hm] at h ⊢ <;> simp [h]
    · simp [h]

theorem foldl_max_const (l : List Nat) (w : Nat) (hall : ∀ x ∈ l, x = w)
    (hne : l ≠ []) : l.foldl Nat.max 0 = w := by
  have h1 := foldl_max_mem l 0
  rcases List.mem_cons.mp h1 with h | h
  · cases l with
    | nil => exact absurd rfl hne
    | cons y ys =>
      have hy : y ≤ List.foldl Nat.max 0 (y :: ys) := le_foldl_max _ _ _ (by simp)
      rw [h] at hy
      have hy0 : y = 0 := Nat.le_zero.mp hy
      have hyw := hall y (by simp)
      rw [h, ← hyw, hy0]
  · exact hall _ h

theorem py_max_spec (l : List Nat) (h : l ≠ []) :
    ∃ m, py_max l = some m ∧ (∀ x ∈ l, x ≤ m) ∧ m ∈ l := by
  cases l with
  | nil => exact absurd rfl h
  | cons x xs =>
    refine ⟨xs.foldl Nat.max x, rfl, ?_, ?_⟩
    · intro y hy
      rcases List.mem_cons.mp hy with h1 | h1
      · subst h1; exact init_le_foldl_max xs y
      · exact le_foldl_max xs x y h1
    · exact foldl_max_mem xs x

/-!  Cell-level lemmas. -/

theorem flatten_map_singleton (l : List Str) : (l.map (fun x => [x])).flatten = l := by
  induction l with
  | nil => rfl
  | cons x xs ih => simp [ih]

theorem flush_inline_pending (c : TableCell) : c.flush_inline.pending = [] := by
  unfold TableCell.flush_inline
  split
  · next h => exact List.isEmpty_iff.mp h
  · rfl

theorem flush_inline_of_empty (c : TableCell) (h : c.pending = []) :
    c.flush_inline = c := by
  unfold TableCell.flush_inline
  rw [if_pos (by simp [h])]

theorem normalize_snd (c : TableCell) :
    (c.normalize_blocks).2 = (c.normalize_blocks).1.blocks.length := by
  simp only [TableCell.normalize_blocks]

theorem normalize_normed (c : TableCell) : CellNormed (c.normalize_blocks).1 := by
  refine ⟨flush_inline_pending c, ?_, ?_⟩
  · simp only [TableCell.normalize_blocks]
    split
    · simp
    · next hemp =>
      exact fun hc => hemp (List.isEmpty_iff.mpr hc)
  · intro b hb
    simp only [TableCell.normalize_blocks] at hb
    split at hb
    · rcases List.mem_singleton.mp hb with rfl
      simp
    · rcases List.mem_flatten.mp hb with ⟨l, hl, hbl⟩
      rcases List.mem_map.mp hl with ⟨bl, _, rfl⟩
      exact mem_split_char_not_mem '\n' bl b hbl

theorem normalize_of_normed (c : TableCell) (h : CellNormed c) :
    c.normalize_blocks = (c, c.blocks.length) := by
  obtain ⟨hp, hne, hnl⟩ := h
  have hmap : c.blocks.map (split_char '\n') = c.blocks.map (fun x => [x]) :=
    List.map_congr_left (fun b hb => split_char_of_not_mem '\n' b (hnl b hb))
  simp only [TableCell.normalize_blocks, flush_inline_of_empty c hp, hmap,
    flatten_map_singleton]
  rw [if_neg (by simpa using hne)]

theorem height_set_of_le (c : TableCell) (h : Nat) (hle : h ≤ c.blocks.length) :
    c.height_set h = c := by
  simp only [TableCell.height_set]
  rw [if_neg (by omega)]

theorem height_set_len (c : TableCell) (h : Nat) :
    (c.height_set h).blocks.length =
      if c.blocks.length < h then h else c.blocks.length := by
  simp only [TableCell.height_set]
  by_cases hlt : c.blocks.length < h
  · rw [if_pos hlt, if_pos hlt]
    cases hv : c.valign <;> simp <;> omega
  · rw [if_neg hlt, if_neg hlt]

theorem height_set_fields (c : TableCell) (h : Nat) :
    (c.height_set h).pending = c.pending ∧ (c.height_set h).align = c.align ∧
      (c.height_set h).valign = c.valign ∧ (c.height_set h).width0 = c.width0 := by
  simp only [TableCell.height_set]
  by_cases hlt : c.blocks.length < h
  · rw [if_pos hlt]
    cases hv : c.valign <;> simp [hv]
  · rw [if_neg hlt]
    simp

theorem height_set_blocks_mem (c : TableCell) (h : Nat) (b : Str)
    (hb : b ∈ (c.height_set h).blocks) : b ∈ c.blocks ∨ b = [] := by
  simp only [TableCell.height_set] at hb
  by_cases hlt : c.blocks.length < h
  · rw [if_pos hlt] at hb
    cases hv : c.valign <;> rw [hv] at hb <;> simp at hb <;> tauto
  · rw [if_neg hlt] at hb
    exact Or.inl hb

theorem height_set_normed (c : TableCell) (h : Nat) (hc : CellNormed c) :
    CellNormed (c.height_set h) := by
  obtain ⟨hp, hne, hnl⟩ := hc
  refine ⟨?_, ?_, ?_⟩
  · rw [(height_set_fields c h).1, hp]
  · intro hcon
    have := height_set_len c h
    rw [hcon] at this
    simp only [List.length_nil] at this
    split at this <;> [omega; exact hne (List.length_eq_zero.mp this.symm)]
  · intro b hb
    rcases height_set_blocks_mem c h b hb with h1 | h1
    · exact hnl b h1
    · simp [h1]

theorem width_set_blocks (c : TableCell) (w : Nat) :
    (c.width_set w).blocks = c.blocks.map (pad_block c.align w) := rfl

theorem width_set_fields (c : TableCell) (w : Nat) :
    (c.width_set w).pending = c.pending ∧ (c.width_set w).align = c.align ∧
      (c.width_set w).valign = c.valign ∧ (c.width_set w).width0 = some w := by
  exact ⟨rfl, rfl, rfl, rfl⟩

theorem width_set_len (c : TableCell) (w : Nat) :
    (c.width_set w).blocks.length = c.blocks.length := by
  rw [width_set_blocks]
  exact List.length_map _ _

theorem pad_block_no_nl (a : HorizontalAlignment) (w : Nat) (s : Str)
    (h : '\n' ∉ s) : '\n' ∉ pad_block a w s := by
  intro hc
  rcases pad_block_mem a w s '\n' hc with h1 | h1
  · exact h h1
  · cases h1

theorem width_set_normed (c : TableCell) (w : Nat) (hc : CellNormed c) :
    CellNormed (c.width_set w) := by
  obtain ⟨hp, hne, hnl⟩ := hc
  refine ⟨by rw [(width_set_fields c w).1, hp], ?_, ?_⟩
  · rw [width_set_blocks]
    simpa using hne
  · intro b hb
    rw [width_set_blocks] at hb
    rcases List.mem_map.mp hb with ⟨b0, hb0, rfl⟩
    exact pad_block_no_nl c.align w b0 (hnl b0 hb0)

theorem cell_lines_of_normed (c : TableCell) (hc : CellNormed c) :
    c.cell_lines = c.blocks := by
  obtain ⟨_, _, hnl⟩ := hc
  unfold TableCell.cell_lines
  rw [List.map_congr_left (fun b hb => split_char_of_not_mem '\n' b (hnl b hb)),
    flatten_map_singleton]

theorem width_get_defined (c : TableCell) (hne : c.blocks ≠ []) :
    ∃ w, c.width_get = some w := by
  unfold TableCell.width_get
  split
  · next h =>
    cases hw : c.width0 with
    | none => rw [hw] at h; simp at h
    | some w => exact ⟨w, rfl⟩
  · have hlines : c.cell_lines ≠ [] := by
      unfold TableCell.cell_lines
      rw [List.flatten_ne_nil_iff]
      cases hb : c.blocks with
      | nil => exact absurd hb hne
      | cons b bs =>
        exact ⟨split_char '\n' b, by simp, split_char_ne_nil '\n' b⟩
    rcases py_max_spec (c.cell_lines.map List.length) (by simpa using hlines) with
      ⟨m, hm, _, _⟩
    exact ⟨m, hm⟩

theorem width_get_truthy (c : TableCell) (w : Nat) (hw : c.width0 = some w)
    (h0 : w ≠ 0) : c.width_get = some w := by
  unfold TableCell.width_get
  rw [if_pos (by simp [hw, h0])]
  exact hw

theorem width_get_untruthy (c : TableCell)
    (h : c.width0 = Option.none ∨ c.width0 = some 0) :
    c.width_get = py_max (c.cell_lines.map List.length) := by
  unfold TableCell.width_get
  rcases h with h | h <;> rw [if_neg (by simp [h])]

theorem update_at_length (j : Nat) (f : TableCell → TableCell) (l : List TableCell) :
    (update_at j f l).length = l.length := by
  induction l generalizing j with
  | nil => simp [update_at]
  | cons c cs ih =>
    cases j with
    | zero => simp [update_at]
    | succ j2 => simp [update_at, ih j2]

theorem update_at_getElem_eq (j : Nat) (f : TableCell → TableCell) (l : List TableCell) :
    (update_at j f l)[j]? = l[j]?.map f := by
  induction l generalizing j with
  | nil => simp [update_at]
  | cons c cs ih =>
    cases j with
    | zero => simp [update_at]
    | succ j2 => simpa [update_at] using ih j2

theorem update_at_getElem_ne (j j2 : Nat) (f : TableCell → TableCell)
    (l : List TableCell) (hne : j2 ≠ j) : (update_at j f l)[j2]? = l[j2]? := by
  induction l generalizing j j2 with
  | nil => simp [update_at]
  | cons c cs ih =>
    cases j with
    | zero =>
      cases j2 with
      | zero => exact absurd rfl hne
      | succ i2 => simp [update_at]
    | succ jj =>
      cases j2 with
      | zero => simp [update_at]
      | succ i2 => simpa [update_at] using ih jj i2 (by omega)

theorem row_set_height_sep (r : TableRow) :
    (r.set_height).cell_separator = r.cell_separator := rfl

theorem row_set_height_len (r : TableRow) :
    (r.set_height).columns.length = r.columns.length := by
  simp [TableRow.set_height]

theorem row_set_height_spec (r : TableRow) :
    ∀ c2 ∈ (r.set_height).columns, CellNormed c2 ∧
      c2.blocks.length =
        ((r.columns.map TableCell.normalize_blocks).map Prod.snd).foldl Nat.max 0 := by
  intro c2 hc2
  simp only [TableRow.set_height] at hc2
  rcases List.mem_map.mp hc2 with ⟨p, hp, rfl⟩
  rcases List.mem_map.mp hp with ⟨c0, _, rfl⟩
  constructor
  · exact height_set_normed _ _ (normalize_normed c0)
  · have hle : (c0.normalize_blocks).2 ≤
        ((r.columns.map TableCell.normalize_blocks).map Prod.snd).foldl Nat.max 0 :=
      le_foldl_max _ _ _ (List.mem_map.mpr ⟨c0.normalize_blocks, hp, rfl⟩)
    rw [normalize_snd] at hle
    rw [height_set_len]
    split <;> omega

theorem row_set_height_id (r : TableRow) (hn : ∀ c ∈ r.columns, CellNormed c)
    (heq : ∀ c1 ∈ r.columns, ∀ c2 ∈ r.columns, c1.blocks.length = c2.blocks.length) :
    r.set_height = r := by
  obtain ⟨cols, sep⟩ := r
  simp only at hn heq
  simp only [TableRow.set_height, TableRow.mk.injEq, and_true]
  have hmapn : cols.map TableCell.normalize_blocks =
      cols.map (fun c => (c, c.blocks.length)) :=
    List.map_congr_left (fun c hc => normalize_of_normed c (hn c hc))
  rw [hmapn]
  cases hcol : cols with
  | nil => simp
  | cons c0 cs =>
    have hc0 : c0 ∈ cols := by rw [hcol]; exact List.mem_cons_self c0 cs
    have hconst : ∀ x ∈ (cols.map (fun c => (c, c.blocks.length))).map Prod.snd,
        x = c0.blocks.length := by
      intro x hx
      rcases List.mem_map.mp hx with ⟨p, hp, rfl⟩
      rcases List.mem_map.mp hp with ⟨c1, hc1, rfl⟩
      exact heq c1 hc1 c0 hc0
    have hne : (cols.map (fun c => (c, c.blocks.length))).map Prod.snd ≠ [] := by
      rw [hcol]; simp
    rw [← hcol]
    simp only [foldl_max_const _ _ hconst hne]
    rw [List.map_map]
    have hid : ∀ c ∈ cols,
        ((fun p => p.1.height_set c0.blocks.length) ∘ fun c => (c, c.blocks.length)) c
          = id c := by
      intro c hc
      simp only [Function.comp, id]
      exact height_set_of_le c _ (by rw [heq c hc c0 hc0])
    rw [List.map_congr_left hid, List.map_id]

theorem set_col_step_sep (t : Table) (j : Nat) :
    (t.set_col_step j).rows.map (fun r => r.cell_separator)
      = t.rows.map (fun r => r.cell_separator) := by
  simp only [Table.set_col_step]
  rw [List.map_map]
  exact List.map_congr_left (fun r _ => rfl)

theorem set_col_step_len (t : Table) (j : Nat) :
    (t.set_col_step j).rows.map (fun r => r.columns.length)
      = t.rows.map (fun r => r.columns.length) := by
  simp only [Table.set_col_step]
  rw [List.map_map]
  exact List.map_congr_left (fun r _ => update_at_length _ _ _)

theorem set_col_step_tcell (t : Table) (j i j2 : Nat) :
    (t.set_col_step j).tcell i j2 =
      if j2 = j then (t.tcell i j2).map (fun c => c.width_set (t.col_width j))
      else t.tcell i j2 := by
  unfold Table.tcell
  simp only [Table.set_col_step]
  rw [List.getElem?_map]
  cases hr : t.rows[i]? with
  | none => split <;> simp
  | some r =>
    simp only [Option.map_some', Option.some_bind]
    by_cases hj : j2 = j
    · subst hj
      rw [if_pos rfl, update_at_getElem_eq]
    · rw [if_neg hj, update_at_getElem_ne j j2 _ _ hj]

theorem set_col_step_colw (t : Table) (j j2 : Nat) (hne : j2 ≠ j) :
    (t.set_col_step j).col_width j2 = t.col_width j2 := by
  unfold Table.col_width
  simp only [Table.set_col_step]
  rw [List.filterMap_map]
  congr 1
  refine List.filterMap_congr (fun r _ => ?_)
  simp only [Function.comp]
  rw [update_at_getElem_ne j j2 _ _ hne]

theorem scw_fold_spec (t : Table) (n : Nat) :
    (((List.range n).foldl Table.set_col_step t).rows.map (fun r => r.cell_separator)
        = t.rows.map (fun r => r.cell_separator)) ∧
    (((List.range n).foldl Table.set_col_step t).rows.map (fun r => r.columns.length)
        = t.rows.map (fun r => r.columns.length)) ∧
    (∀ j, n ≤ j → ((List.range n).foldl Table.set_col_step t).col_width j = t.col_width j) ∧
    (∀ i j, ((List.range n).foldl Table.set_col_step t).tcell i j =
        if j < n then (t.tcell i j).map (fun c => c.width_set (t.col_width j))
        else t.tcell i j) := by
  induction n with
  | zero => simp
  | succ n ih =>
    obtain ⟨ih1, ih2, ih3, ih4⟩ := ih
    have hstep : (List.range (n + 1)).foldl Table.set_col_step t
        = ((List.range n).foldl Table.set_col_step t).set_col_step n := by
      rw [List.range_succ, List.foldl_append]
      rfl
    refine ⟨?_, ?_, ?_, ?_⟩
    · rw [hstep, set_col_step_sep, ih1]
    · rw [hstep, set_col_step_len, ih2]
    · intro j hj
      rw [hstep, set_col_step_colw _ _ _ (by omega)]
      exact ih3 j (by omega)
    · intro i j
      rw [hstep, set_col_step_tcell]
      by_cases hjn : j = n
      · subst hjn
        rw [if_pos rfl, if_pos (by omega), ih4 i j, if_neg (by omega),
          ih3 j (le_refl j)]
      · rw [if_neg hjn, ih4 i j]
        by_cases hlt : j < n
        · rw [if_pos hlt, if_pos (by omega)]
        · rw [if_neg hlt, if_neg (by omega)]

theorem cols_le_max_columns (t : Table) (r : TableRow) (hmem : r ∈ t.rows) :
    r.columns.length ≤ t.max_columns :=
  le_foldl_max _ _ _ (List.mem_map.mpr ⟨r, hmem, rfl⟩)

theorem set_column_width_sep (t : Table) :
    t.set_column_width.rows.map (fun r => r.cell_separator)
      = t.rows.map (fun r => r.cell_separator) :=
  (scw_fold_spec t t.max_columns).1

theorem set_column_width_len (t : Table) :
    t.set_column_width.rows.map (fun r => r.columns.length)
      = t.rows.map (fun r => r.columns.length) :=
  (scw_fold_spec t t.max_columns).2.1

theorem set_column_width_tcell (t : Table) (i j : Nat) (r : TableRow) (c : TableCell)
    (hr : t.rows[i]? = some r) (hc : r.columns[j]? = some c) :
    t.set_column_width.tcell i j = some (c.width_set (t.col_width j)) := by
  have h4 := (scw_fold_spec t t.max_columns).2.2.2 i j
  have hjr : j < r.columns.length := (List.getElem?_eq_some_iff.mp hc).1
  have hj : j < t.max_columns :=
    lt_of_lt_of_le hjr (cols_le_max_columns t r (List.mem_iff_getElem?.mpr ⟨i, hr⟩))
  have htc : t.tcell i j = some c := by
    unfold Table.tcell
    rw [hr, Option.some_bind, hc]
  rw [Table.set_column_width, h4, if_pos hj, htc, Option.map_some']

theorem foldl_max_le (l : List Nat) (w : Nat) (h : ∀ x ∈ l, x ≤ w) :
    l.foldl Nat.max 0 ≤ w := by
  rcases List.mem_cons.mp (foldl_max_mem l 0) with h1 | h1
  · omega
  · exact h _ h1

theorem tcell_some (t : Table) (i j : Nat) (c : TableCell) :
    t.tcell i j = some c ↔ ∃ r, t.rows[i]? = some r ∧ r.columns[j]? = some c := by
  unfold Table.tcell
  cases t.rows[i]? <;> simp

theorem srh_rows (t : Table) (i : Nat) :
    t.set_row_height.rows[i]? = (t.rows[i]?).map TableRow.set_height := by
  simp [Table.set_row_height, List.getElem?_map]

theorem srh_tcell (t : Table) (i j : Nat) (c : TableCell)
    (hc : t.set_row_height.tcell i j = some c) :
    CellNormed c ∧ ∀ j2 c2, t.set_row_height.tcell i j2 = some c2 →
      c2.blocks.length = c.blocks.length := by
  rcases (tcell_some _ _ _ _).mp hc with ⟨r, hr, hcj⟩
  rw [srh_rows] at hr
  cases hr0 : t.rows[i]? with
  | none => rw [hr0] at hr; cases hr
  | some r0 =>
    rw [hr0, Option.map_some'] at hr
    injection hr with hr
    subst hr
    have hmem : c ∈ r0.set_height.columns := List.mem_iff_getElem?.mpr ⟨j, hcj⟩
    have hspec := row_set_height_spec r0 c hmem
    refine ⟨hspec.1, ?_⟩
    intro j2 c2 hc2
    rcases (tcell_some _ _ _ _).mp hc2 with ⟨r2, hr2, hc2j⟩
    rw [srh_rows, hr0, Option.map_some'] at hr2
    injection hr2 with hr2
    subst hr2
    have hmem2 : c2 ∈ r0.set_height.columns := List.mem_iff_getElem?.mpr ⟨j2, hc2j⟩
    rw [(row_set_height_spec r0 c2 hmem2).2, hspec.2]

theorem col_width_ge (t : Table) (i j : Nat) (r : TableRow) (c : TableCell) (w : Nat)
    (hr : t.rows[i]? = some r) (hc : r.columns[j]? = some c)
    (hw : c.width_get = some w) : w ≤ t.col_width j := by
  apply le_foldl_max
  apply List.mem_filterMap.mpr
  exact ⟨r, List.mem_iff_getElem?.mpr ⟨i, hr⟩, by rw [hc, Option.some_bind, hw]⟩

theorem width_set_blocks_ge (c : TableCell) (w : Nat) (b : Str)
    (hb : b ∈ (c.width_set w).blocks) : w ≤ b.length := by
  rw [width_set_blocks] at hb
  rcases List.mem_map.mp hb with ⟨b0, _, rfl⟩
  rw [pad_block_length]
  split <;> omega

theorem width_set_blocks_id (c : TableCell) (w : Nat)
    (hge : ∀ b ∈ c.blocks, w ≤ b.length) : (c.width_set w).blocks = c.blocks := by
  rw [width_set_blocks]
  have : ∀ b ∈ c.blocks, pad_block c.align w b = id b :=
    fun b hb => pad_block_of_le c.align w b (hge b hb)
  rw [List.map_congr_left this, List.map_id]

theorem width_get_width_set (c : TableCell) (w : Nat) (hc : CellNormed c)
    (hmax : ∀ w0, c.width_get = some w0 → w0 ≤ w) :
    (c.width_set w).width_get = some w := by
  by_cases h0 : w = 0
  · subst h0
    rcases width_get_defined c hc.2.1 with ⟨w0, hw0⟩
    have hw00 : w0 = 0 := Nat.le_zero.mp (hmax w0 hw0)
    subst hw00
    have huntr : c.width0 = Option.none ∨ c.width0 = some 0 := by
      cases hwc : c.width0 with
      | none => exact Or.inl rfl
      | some k =>
        by_cases hk : k = 0
        · subst hk
          exact Or.inr rfl
        · rw [width_get_truthy c k hwc hk] at hw0
          injection hw0 with hw0
          exact absurd hw0 hk
    have hblocks : (c.width_set 0).blocks = c.blocks :=
      width_set_blocks_id c 0 (fun b _ => Nat.zero_le _)
    have huntr2 : (c.width_set 0).width0 = Option.none ∨ (c.width_set 0).width0 = some 0 :=
      Or.inr (width_set_fields c 0).2.2.2
    rw [width_get_untruthy _ huntr2]
    rw [width_get_untruthy _ huntr] at hw0
    have hl : (c.width_set 0).cell_lines = c.cell_lines := by
      unfold TableCell.cell_lines
      rw [hblocks]
    rw [hl]
    exact hw0
  · exact width_get_truthy _ w (width_set_fields c w).2.2.2 h0

theorem layout_tcell (t : Table) (i j : Nat) (c : TableCell)
    (hc : t.layout.tcell i j = some c) :
    ∃ c0, t.set_row_height.tcell i j = some c0 ∧ CellNormed c0 ∧
      c = c0.width_set (t.set_row_height.col_width j) := by
  have h4 := (scw_fold_spec t.set_row_height t.set_row_height.max_columns).2.2.2 i j
  rw [show t.layout.tcell i j
      = ((List.range t.set_row_height.max_columns).foldl Table.set_col_step
          t.set_row_height).tcell i j from rfl, h4] at hc
  by_cases hj : j < t.set_row_height.max_columns
  · rw [if_pos hj] at hc
    cases h0 : t.set_row_height.tcell i j with
    | none => rw [h0] at hc; cases hc
    | some c0 =>
      rw [h0, Option.map_some'] at hc
      injection hc with hc
      exact ⟨c0, rfl, (srh_tcell t i j c0 h0).1, hc.symm⟩
  · rw [if_neg hj] at hc
    exfalso
    rcases (tcell_some _ _ _ _).mp hc with ⟨r, hr, hcj⟩
    have : j < r.columns.length := (List.getElem?_eq_some_iff.mp hcj).1
    have hle := cols_le_max_columns _ r (List.mem_iff_getElem?.mpr ⟨i, hr⟩)
    omega

theorem layout_width_get (t : Table) (i j : Nat) (c : TableCell)
    (hc : t.layout.tcell i j = some c) :
    c.width_get = some (t.set_row_height.col_width j) := by
  rcases layout_tcell t i j c hc with ⟨c0, h0, hn0, rfl⟩
  apply width_get_width_set c0 _ hn0
  intro w0 hw0
  rcases (tcell_some _ _ _ _).mp h0 with ⟨r, hr, hcj⟩
  exact col_width_ge _ i j r c0 w0 hr hcj hw0

theorem layout_normed (t : Table) (i j : Nat) (c : TableCell)
    (hc : t.layout.tcell i j = some c) : CellNormed c := by
  rcases layout_tcell t i j c hc with ⟨c0, _, hn0, rfl⟩
  exact width_set_normed _ _ hn0

theorem layout_heights (t : Table) (i j1 j2 : Nat) (c1 c2 : TableCell)
    (h1 : t.layout.tcell i j1 = some c1) (h2 : t.layout.tcell i j2 = some c2) :
    c1.blocks.length = c2.blocks.length := by
  rcases layout_tcell t i j1 c1 h1 with ⟨d1, hd1, _, rfl⟩
  rcases layout_tcell t i j2 c2 h2 with ⟨d2, hd2, _, rfl⟩
  rw [width_set_len, width_set_len]
  exact ((srh_tcell t i j1 d1 hd1).2 j2 d2 hd2).symm

theorem layout_srh_id (t : Table) : t.layout.set_row_height = t.layout := by
  have hid : ∀ r ∈ t.layout.rows, TableRow.set_height r = id r := by
    intro r hr
    rcases List.mem_iff_getElem?.mp hr with ⟨i, hri⟩
    simp only [id]
    apply row_set_height_id
    · intro c hc
      rcases List.mem_iff_getElem?.mp hc with ⟨j, hcj⟩
      exact layout_normed t i j c ((tcell_some _ _ _ _).mpr ⟨r, hri, hcj⟩)
    · intro c1 hc1 c2 hc2
      rcases List.mem_iff_getElem?.mp hc1 with ⟨j1, hj1⟩
      rcases List.mem_iff_getElem?.mp hc2 with ⟨j2, hj2⟩
      exact layout_heights t i j1 j2 c1 c2 ((tcell_some _ _ _ _).mpr ⟨r, hri, hj1⟩)
        ((tcell_some _ _ _ _).mpr ⟨r, hri, hj2⟩)
  unfold Table.set_row_height
  rw [List.map_congr_left hid, List.map_id]

theorem ucolw_le (t : Table) (j : Nat) :
    t.layout.col_width j ≤ t.set_row_height.col_width j := by
  unfold Table.col_width
  apply foldl_max_le
  intro x hx
  rcases List.mem_filterMap.mp hx with ⟨r, hr, hfr⟩
  rcases List.mem_iff_getElem?.mp hr with ⟨i, hri⟩
  cases hcj : r.columns[j]? with
  | none => rw [hcj] at hfr; cases hfr
  | some c =>
    rw [hcj, Option.some_bind] at hfr
    have hw := layout_width_get t i j c ((tcell_some _ _ _ _).mpr ⟨r, hri, hcj⟩)
    rw [hw] at hfr
    injection hfr with hfr
    exact le_of_eq hfr.symm

theorem layout_rows_length (t : Table) : t.layout.rows.length = t.rows.length := by
  have h1 : t.set_row_height.rows.length = t.rows.length := by
    simp [Table.set_row_height]
  have h2 := congrArg List.length (set_column_width_len t.set_row_height)
  simp only [List.length_map] at h2
  exact h2.trans h1

theorem layout_scw_blocks (t : Table) :
    t.layout.set_column_width.rows.map
        (fun r => (r.cell_separator, r.columns.map TableCell.blocks))
      = t.layout.rows.map (fun r => (r.cell_separator, r.columns.map TableCell.blocks)) := by
  have hlen : t.layout.set_column_width.rows.length = t.layout.rows.length := by
    have h2 := congrArg List.length (set_column_width_len t.layout)
    simpa using h2
  apply List.ext_getElem?
  intro i
  rw [List.getElem?_map, List.getElem?_map]
  cases hui : t.layout.rows[i]? with
  | none =>
    have hiu : t.layout.rows.length ≤ i := by
      by_contra hcon
      rcases List.getElem?_eq_some_iff.mpr ⟨Nat.lt_of_not_le hcon, rfl⟩ with h
      rw [hui] at h
      cases h
    rw [List.getElem?_eq_none (by omega)]
  | some r1 =>
    have hi : i < t.layout.rows.length := (List.getElem?_eq_some_iff.mp hui).1
    have hiv : i < t.layout.set_column_width.rows.length := by omega
    obtain ⟨r2, hr2⟩ : ∃ r2, t.layout.set_column_width.rows[i]? = some r2 :=
      ⟨_, List.getElem?_eq_some_iff.mpr ⟨hiv, rfl⟩⟩
    rw [hr2, Option.map_some', Option.map_some']
    have hsep : r2.cell_separator = r1.cell_separator := by
      have hs := congrArg (fun l => l[i]?) (set_column_width_sep t.layout)
      simp only [List.getElem?_map, hr2, hui, Option.map_some'] at hs
      injection hs
    congr 1
    refine Prod.ext hsep ?_
    apply List.ext_getElem?
    intro j
    rw [List.getElem?_map, List.getElem?_map]
    have hv2 := (scw_fold_spec t.layout t.layout.max_columns).2.2.2 i j
    have hv2l : t.layout.set_column_width.tcell i j = r2.columns[j]? := by
      unfold Table.tcell
      rw [show t.layout.set_column_width.rows[i]?
        = ((List.range t.layout.max_columns).foldl Table.set_col_step t.layout).rows[i]?
        from rfl] at hr2
      rw [show t.layout.set_column_width
        = (List.range t.layout.max_columns).foldl Table.set_col_step t.layout from rfl,
        hr2, Option.some_bind]
    have hul : t.layout.tcell i j = r1.columns[j]? := by
      unfold Table.tcell
      rw [hui, Option.some_bind]
    rw [show ((List.range t.layout.max_columns).foldl Table.set_col_step t.layout).tcell i j
      = t.layout.set_column_width.tcell i j from rfl] at hv2
    rw [hv2l, hul] at hv2
    cases hcj : r1.columns[j]? with
    | none =>
      rw [hcj] at hv2
      by_cases hjn : j < t.layout.max_columns
      · rw [if_pos hjn, Option.map_none'] at hv2
        rw [hv2]
      · rw [if_neg hjn] at hv2
        rw [hv2]
    | some c =>
      rw [hcj] at hv2
      by_cases hjn : j < t.layout.max_columns
      · rw [if_pos hjn, Option.map_some'] at hv2
        rw [hv2, Option.map_some', Option.map_some']
        have hc : t.layout.tcell i j = some c := by rw [hul, hcj]
        rcases layout_tcell t i j c hc with ⟨c0, _, _, hcw⟩
        have hge : ∀ b ∈ c.blocks, t.layout.col_width j ≤ b.length := by
          intro b hb
          have h1 : t.set_row_height.col_width j ≤ b.length := by
            rw [hcw] at hb
            exact width_set_blocks_ge c0 _ b hb
          have h2 := ucolw_le t j
          omega
        rw [width_set_blocks_id c _ hge]
      · rw [if_neg hjn] at hv2
        rw [hv2]

theorem row_get_text_congr (r1 r2 : TableRow)
    (hsep : r1.cell_separator = r2.cell_separator)
    (hb : r1.columns.map TableCell.blocks = r2.columns.map TableCell.blocks) :
    r1.get_text = r2.get_text := by
  unfold TableRow.get_text
  rw [hsep, hb]

theorem layout_idempotent_render (t : Table) :
    t.layout.layout.rows.map TableRow.get_text
      = t.layout.rows.map TableRow.get_text := by
  have h1 : t.layout.layout = t.layout.set_column_width := by
    show t.layout.set_row_height.set_column_width = t.layout.set_column_width
    rw [layout_srh_id]
  rw [h1]
  have hblocks := layout_scw_blocks t
  apply List.ext_getElem?
  intro i
  rw [List.getElem?_map, List.getElem?_map]
  have hbi := congrArg (fun l => l[i]?) hblocks
  simp only [List.getElem?_map] at hbi
  cases h2 : t.layout.set_column_width.rows[i]? with
  | none =>
    cases h3 : t.layout.rows[i]? with
    | none => rfl
    | some r => rw [h2, h3] at hbi; simp at hbi
  | some r2 =>
    cases h3 : t.layout.rows[i]? with
    | none => rw [h2, h3] at hbi; simp at hbi
    | some r1 =>
      rw [h2, h3] at hbi
      simp only [Option.map_some'] at hbi
      injection hbi with hbi
      have hsep : r2.cell_separator = r1.cell_separator := congrArg Prod.fst hbi
      have hbl := congrArg Prod.snd hbi
      rw [Option.map_some', Option.map_some', row_get_text_congr r2 r1 hsep hbl]

theorem intercalate_singleton (s x : Str) : List.intercalate s [x] = x := by
  simp [List.intercalate]

theorem intercalate_two (s a b : Str) (l : List Str) :
    List.intercalate s (a :: b :: l) = a ++ s ++ List.intercalate s (b :: l) := by
  simp [List.intercalate]

theorem intercalate_split_char (sep : Char) (s : Str) :
    List.intercalate [sep] (split_char sep s) = s := by
  induction s with
  | nil => simp [split_char, List.intercalate]
  | cons c rest ih =>
    simp only [split_char]
    by_cases hc : c = sep
    · rw [if_pos hc]
      cases hsp : split_char sep rest with
      | nil => exact absurd hsp (split_char_ne_nil sep rest)
      | cons x xs =>
        rw [hsp] at ih
        rw [intercalate_two, ih, hc]
        rfl
    · rw [if_neg hc]
      cases hsp : split_char sep rest with
      | nil => exact absurd hsp (split_char_ne_nil sep rest)
      | cons x xs =>
        rw [hsp] at ih
        cases xs with
        | nil =>
          rw [intercalate_singleton] at ih ⊢
          rw [← ih]
        | cons y ys =>
          rw [intercalate_two] at ih
          rw [intercalate_two, ← ih]
          rfl

theorem split_char_append (sep : Char) (a b : Str) (ha : sep ∉ a) :
    split_char sep (a ++ sep :: b) = a :: split_char sep b := by
  induction a with
  | nil => simp [split_char]
  | cons c a2 ih =>
    simp only [List.mem_cons, not_or] at ha
    have hc : ¬ c = sep := fun h => ha.1 h.symm
    rw [List.cons_append]
    simp only [split_char, if_neg hc]
    rw [ih ha.2]

theorem split_first_append (sep : Char) (a b : Str) (ha : sep ∉ a) :
    split_first sep (a ++ sep :: b) = (a, b) := by
  unfold split_first
  rw [split_char_append sep a b ha]
  show (a, List.intercalate [sep] (split_char sep b)) = (a, b)
  rw [intercalate_split_char]

theorem foldl_min_len_const (rest : List (List Str)) (h0 : Nat)
    (hall : ∀ x ∈ rest, x.length = h0) :
    rest.foldl (fun m x => Nat.min m x.length) h0 = h0 := by
  induction rest with
  | nil => rfl
  | cons y ys ih =>
    simp only [List.foldl_cons]
    rw [hall y (by simp), show Nat.min h0 h0 = h0 from min_self h0]
    exact ih (fun x hx => hall x (by simp [hx]))

theorem pyzip_len_const (ls : List (List Str)) (h : Nat) (hne : ls ≠ [])
    (hall : ∀ l ∈ ls, l.length = h) : pyzip_len ls = h := by
  cases ls with
  | nil => exact absurd rfl hne
  | cons l rest =>
    show rest.foldl (fun m x => Nat.min m x.length) l.length = h
    rw [hall l (by simp)]
    exact foldl_min_len_const rest h (fun x hx => hall x (by simp [hx]))

/-!  Result and invariant lemmas for the style handlers: every handler either
returns a new element or raises AttributeError or OverflowError (never an
uncaught ValueError), and every handler preserves a display value of none. -/

theorem attr_display_none (v : Str) (e : HtmlElement) (hd : e.display = Display.none) :
    attr_display v e = e := by
  unfold attr_display
  rw [if_pos hd]

theorem attr_display_display (v : Str) (e : HtmlElement)
    (hd : e.display = Display.none) : (attr_display v e).display = Display.none := by
  rw [attr_display_none v e hd]
  exact hd

theorem attr_white_space_display (v : Str) (e : HtmlElement) :
    (attr_white_space v e).display = e.display := by
  unfold attr_white_space
  split_ifs <;> rfl

theorem attr_horizontal_align_display (v : Str) (e : HtmlElement) :
    (attr_horizontal_align v e).display = e.display := by
  unfold attr_horizontal_align
  split_ifs <;> rfl

theorem attr_vertical_align_display (v : Str) (e : HtmlElement) :
    (attr_vertical_align v e).display = e.display := by
  unfold attr_vertical_align
  split_ifs <;> rfl

theorem attr_margin_top_cases (v : Str) (e : HtmlElement) :
    attr_margin_top v e = .error .attributeError ∨
    attr_margin_top v e = .error .overflowError ∨
    ∃ e2, attr_margin_top v e = .ok e2 ∧ e2.display = e.display := by
  unfold attr_margin_top
  cases hg : get_em v with
  | ok n => exact Or.inr (Or.inr ⟨_, rfl, rfl⟩)
  | error err =>
    cases err with
    | attributeError => exact Or.inl rfl
    | valueError => exact Or.inr (Or.inr ⟨e, rfl, rfl⟩)
    | overflowError => exact Or.inr (Or.inl rfl)

theorem attr_margin_bottom_cases (v : Str) (e : HtmlElement) :
    attr_margin_bottom v e = .error .attributeError ∨
    attr_margin_bottom v e = .error .overflowError ∨
    ∃ e2, attr_margin_bottom v e = .ok e2 ∧ e2.display = e.display := by
  unfold attr_margin_bottom
  cases hg : get_em v with
  | ok n => exact Or.inr (Or.inr ⟨_, rfl, rfl⟩)
  | error err =>
    cases err with
    | attributeError => exact Or.inl rfl
    | valueError => exact Or.inr (Or.inr ⟨e, rfl, rfl⟩)
    | overflowError => exact Or.inr (Or.inl rfl)

theorem attr_padding_left_cases (v : Str) (e : HtmlElement) :
    attr_padding_left v e = .error .attributeError ∨
    attr_padding_left v e = .error .overflowError ∨
    ∃ e2, attr_padding_left v e = .ok e2 ∧ e2.display = e.display := by
  unfold attr_padding_left
  cases hg : get_em v with
  | ok n => exact Or.inr (Or.inr ⟨_, rfl, rfl⟩)
  | error err =>
    cases err with
    | attributeError => exact Or.inl rfl
    | valueError => exact Or.inr (Or.inr ⟨e, rfl, rfl⟩)
    | overflowError => exact Or.inr (Or.inl rfl)

theorem run_handler_cases (sub : Str → HtmlElement → Except PyError HtmlElement)
    (hsub : ∀ (s : Str) (e : HtmlElement),
      (∃ e2, sub s e = .ok e2 ∧ (e.display = Display.none → e2.display = Display.none)) ∨
        sub s e = .error .overflowError)
    (h : StyleHandler) (v : Str) (e : HtmlElement) :
    run_handler sub h v e = .error .attributeError ∨
    run_handler sub h v e = .error .overflowError ∨
    ∃ e2, run_handler sub h v e = .ok e2 ∧
      (e.display = Display.none → e2.display = Display.none) := by
  cases h with
  | style =>
    rcases hsub v e with ⟨e2, hok, hd⟩ | hoe
    · exact Or.inr (Or.inr ⟨e2, hok, hd⟩)
    · exact Or.inr (Or.inl hoe)
  | display =>
    refine Or.inr (Or.inr ⟨_, rfl, ?_⟩)
    exact fun hd => attr_display_display v e hd
  | white_space =>
    refine Or.inr (Or.inr ⟨_, rfl, ?_⟩)
    intro hd
    rw [attr_white_space_display]
    exact hd
  | margin_top =>
    rcases attr_margin_top_cases v e with h1 | h1 | ⟨e2, h1, h2⟩
    · exact Or.inl h1
    · exact Or.inr (Or.inl h1)
    · exact Or.inr (Or.inr ⟨e2, h1, fun hd => by rw [h2]; exact hd⟩)
  | margin_bottom =>
    rcases attr_margin_bottom_cases v e with h1 | h1 | ⟨e2, h1, h2⟩
    · exact Or.inl h1
    · exact Or.inr (Or.inl h1)
    · exact Or.inr (Or.inr ⟨e2, h1, fun hd => by rw [h2]; exact hd⟩)
  | padding_left =>
    rcases attr_padding_left_cases v e with h1 | h1 | ⟨e2, h1, h2⟩
    · exact Or.inl h1
    · exact Or.inr (Or.inl h1)
    · exact Or.inr (Or.inr ⟨e2, h1, fun hd => by rw [h2]; exact hd⟩)
  | horizontal_align =>
    refine Or.inr (Or.inr ⟨_, rfl, ?_⟩)
    intro hd
    rw [attr_horizontal_align_display]
    exact hd
  | vertical_align =>
    refine Or.inr (Or.inr ⟨_, rfl, ?_⟩)
    intro hd
    rw [attr_vertical_align_display]
    exact hd

theorem do_directive_unrecognized (sub : Str → HtmlElement → Except PyError HtmlElement)
    (d : Str) (e : HtmlElement)
    (h : ':' ∉ d ∨ lookup_handler (py_strip (split_first ':' d).1) = Option.none) :
    do_directive sub d e = .ok e := by
  simp only [do_directive]
  rcases h with h | h
  · rw [if_neg h]
  · by_cases hc : ':' ∈ d
    · rw [if_pos hc, h]
    · rw [if_neg hc]

theorem do_directive_eq_of_lookup (sub : Str → HtmlElement → Except PyError HtmlElement)
    (d : Str) (e : HtmlElement) (h : StyleHandler) (hc : ':' ∈ d)
    (hl : lookup_handler (py_strip (split_first ':' d).1) = some h) :
    do_directive sub d e =
      match run_handler sub h (py_strip (split_first ':' d).2) e with
      | .error .attributeError => .ok e
      | r => r := by
  simp only [do_directive]
  rw [if_pos hc, hl]

theorem do_directive_spec (sub : Str → HtmlElement → Except PyError HtmlElement)
    (hsub : ∀ (s : Str) (e : HtmlElement),
      (∃ e2, sub s e = .ok e2 ∧ (e.display = Display.none → e2.display = Display.none)) ∨
        sub s e = .error .overflowError)
    (d : Str) (e : HtmlElement) :
    (∃ e2, do_directive sub d e = .ok e2 ∧
      (e.display = Display.none → e2.display = Display.none)) ∨
      do_directive sub d e = .error .overflowError := by
  by_cases hc : ':' ∈ d
  · cases hl : lookup_handler (py_strip (split_first ':' d).1) with
    | none =>
      rw [do_directive_unrecognized sub d e (Or.inr hl)]
      exact Or.inl ⟨e, rfl, fun h => h⟩
    | some h =>
      rw [do_directive_eq_of_lookup sub d e h hc hl]
      rcases run_handler_cases sub hsub h (py_strip (split_first ':' d).2) e with
        h1 | h1 | ⟨e2, h1, h2⟩
      · rw [h1]
        exact Or.inl ⟨e, rfl, fun h => h⟩
      · rw [h1]
        exact Or.inr rfl
      · rw [h1]
        exact Or.inl ⟨e2, rfl, h2⟩
  · rw [do_directive_unrecognized sub d e (Or.inl hc)]
    exact Or.inl ⟨e, rfl, fun h => h⟩

theorem run_directives_spec (sub : Str → HtmlElement → Except PyError HtmlElement)
    (hsub : ∀ (s : Str) (e : HtmlElement),
      (∃ e2, sub s e = .ok e2 ∧ (e.display = Display.none → e2.display = Display.none)) ∨
        sub s e = .error .overflowError) :
    ∀ (ds : List Str) (e : HtmlElement),
      (∃ e2, run_directives sub ds e = .ok e2 ∧
        (e.display = Display.none → e2.display = Display.none)) ∨
        run_directives sub ds e = .error .overflowError := by
  intro ds
  induction ds with
  | nil => intro e; exact Or.inl ⟨e, rfl, fun h => h⟩
  | cons d ds ih =>
    intro e
    rcases do_directive_spec sub hsub d e with ⟨e2, hok, hd⟩ | hoe
    · unfold run_directives
      rw [hok]
      rcases ih e2 with ⟨e3, hok3, hd3⟩ | hoe3
      · exact Or.inl ⟨e3, hok3, fun h => hd3 (hd h)⟩
      · exact Or.inr hoe3
    · unfold run_directives
      rw [hoe]
      exact Or.inr rfl

theorem attr_style_fuel_spec : ∀ (f : Nat) (s : Str) (e : HtmlElement),
    (∃ e2, attr_style_fuel f s e = .ok e2 ∧
      (e.display = Display.none → e2.display = Display.none)) ∨
      attr_style_fuel f s e = .error .overflowError := by
  intro f
  induction f with
  | zero => intro s e; exact Or.inl ⟨e, rfl, fun h => h⟩
  | succ f ih =>
    intro s e
    simp only [attr_style_fuel]
    exact run_directives_spec _ (fun s2 e2 => ih s2 e2) _ _

theorem run_directives_all_skip (sub : Str → HtmlElement → Except PyError HtmlElement)
    (ds : List Str) (e : HtmlElement)
    (h : ∀ d ∈ ds, ':' ∉ d ∨ lookup_handler (py_strip (split_first ':' d).1) = Option.none) :
    run_directives sub ds e = .ok e := by
  induction ds with
  | nil => rfl
  | cons d ds ih =>
    unfold run_directives
    rw [do_directive_unrecognized sub d e (h d (by simp))]
    exact ih (fun d2 hd2 => h d2 (by simp [hd2]))

theorem get_em_no_match (v : Str) (h : re_unit_search v = Option.none) :
    get_em v = .error .attributeError := by
  unfold get_em
  rw [h]

theorem attr_margin_top_no_match (v : Str) (e : HtmlElement)
    (h : re_unit_search v = Option.none) :
    attr_margin_top v e = .error .attributeError := by
  unfold attr_margin_top
  rw [get_em_no_match v h]

theorem attr_margin_bottom_no_match (v : Str) (e : HtmlElement)
    (h : re_unit_search v = Option.none) :
    attr_margin_bottom v e = .error .attributeError := by
  unfold attr_margin_bottom
  rw [get_em_no_match v h]

theorem attr_padding_left_no_match (v : Str) (e : HtmlElement)
    (h : re_unit_search v = Option.none) :
    attr_padding_left v e = .error .attributeError := by
  unfold attr_padding_left
  rw [get_em_no_match v h]

theorem do_directive_malformed (sub : Str → HtmlElement → Except PyError HtmlElement)
    (key lvalue : Str) (e : HtmlElement) (hc : ':' ∉ key)
    (hl : lookup_handler (py_strip key) = some StyleHandler.margin_top ∨
      lookup_handler (py_strip key) = some StyleHandler.margin_bottom ∨
      lookup_handler (py_strip key) = some StyleHandler.padding_left)
    (hnomatch : re_unit_search (py_strip lvalue) = Option.none) :
    do_directive sub (key ++ ':' :: lvalue) e = .ok e := by
  have hcd : ':' ∈ key ++ ':' :: lvalue := by simp
  have hsf : split_first ':' (key ++ ':' :: lvalue) = (key, lvalue) :=
    split_first_append ':' key lvalue hc
  rcases hl with hl | hl | hl
  · rw [do_directive_eq_of_lookup sub _ e _ hcd (by rw [hsf]; exact hl), hsf]
    show (match attr_margin_top (py_strip lvalue) e with
      | .error .attributeError => Except.ok e
      | r => r) = .ok e
    rw [attr_margin_top_no_match _ e hnomatch]
  · rw [do_directive_eq_of_lookup sub _ e _ hcd (by rw [hsf]; exact hl), hsf]
    show (match attr_margin_bottom (py_strip lvalue) e with
      | .error .attributeError => Except.ok e
      | r => r) = .ok e
    rw [attr_margin_bottom_no_match _ e hnomatch]
  · rw [do_directive_eq_of_lookup sub _ e _ hcd (by rw [hsf]; exact hl), hsf]
    show (match attr_padding_left (py_strip lvalue) e with
      | .error .attributeError => Except.ok e
      | r => r) = .ok e
    rw [attr_padding_left_no_match _ e hnomatch]

theorem attr_style_fuel_all_unrecognized (f : Nat) (s : Str) (e : HtmlElement)
    (h : ∀ d ∈ split_char ';' (py_lower s),
      ':' ∉ d ∨ lookup_handler (py_strip (split_first ':' d).1) = Option.none) :
    attr_style_fuel (f + 1) s e = .ok e := by
  simp only [attr_style_fuel]
  exact run_directives_all_skip _ _ e h

/-!  Claim theorems. -/

/-- Claim C2: setting a cell height to a target at most the current line
count leaves the cell unchanged; a larger target inserts exactly target
minus current blank lines, all before the content for bottom alignment,
floor of half before and the remainder after for middle, and all after for
top; a one-line middle cell grown to height 4 gains one blank line before
and two after. -/
theorem C2_height_setter (c : TableCell) (h : Nat) :
    (h ≤ c.blocks.length → c.height_set h = c) ∧
    (c.blocks.length < h →
      (c.height_set h).blocks.length = h ∧
      (c.valign = VerticalAlignment.bottom →
        (c.height_set h).blocks = List.replicate (h - c.blocks.length) [] ++ c.blocks) ∧
      (c.valign = VerticalAlignment.middle →
        (c.height_set h).blocks =
          List.replicate ((h - c.blocks.length) / 2) [] ++ c.blocks
            ++ List.replicate ((h - c.blocks.length) - (h - c.blocks.length) / 2) []) ∧
      (c.valign = VerticalAlignment.top →
        (c.height_set h).blocks = c.blocks ++ List.replicate (h - c.blocks.length) [])) ∧
    (c.blocks.length = 1 → c.valign = VerticalAlignment.middle → h = 4 →
      (c.height_set h).blocks = [] :: c.blocks ++ [[], []]) := by
  refine ⟨height_set_of_le c h, ?_, ?_⟩
  · intro hlt
    refine ⟨by rw [height_set_len, if_pos hlt], ?_, ?_, ?_⟩
    · intro hv
      simp only [TableCell.height_set, if_pos hlt, hv]
    · intro hv
      simp only [TableCell.height_set, if_pos hlt, hv]
      have harith : (h - c.blocks.length + 1) / 2
          = (h - c.blocks.length) - (h - c.blocks.length) / 2 := by omega
      rw [harith]
    · intro hv
      simp only [TableCell.height_set, if_pos hlt, hv]
  · intro h1 hv h4
    subst h4
    simp only [TableCell.height_set, hv, h1]
    norm_num
    rfl

/-- Claim C2 witness at a concrete one-line middle cell. -/
theorem C2_height_setter_witness :
    c2w_cell.height_set 1 = c2w_cell ∧
      (c2w_cell.height_set 4).blocks = [[], ['h', 'i'], [], []] := by
  constructor
  · exact (C2_height_setter c2w_cell 1).1 (by decide)
  · have h := (C2_height_setter c2w_cell 4).2.2 (by decide) (by decide) rfl
    rw [h]
    rfl

/-- Claim C4: a table without rows renders as exactly one line break; a
table with rows renders as the row texts of the laid-out table joined with a
line break between consecutive rows and one trailing line break. -/
theorem C4_render (t : Table) :
    (t.rows = [] → t.get_text = ['\n']) ∧
    (t.rows ≠ [] →
      t.get_text
        = List.intercalate ['\n'] (t.layout.rows.map TableRow.get_text) ++ ['\n']) := by
  unfold Table.get_text
  constructor
  · intro h
    rw [if_pos (by simp [h])]
  · intro h
    rw [if_neg (by simpa using h)]

/-- Claim C4 witness at an empty and a one-row table. -/
theorem C4_render_witness :
    c4_empty_table.rows = [] ∧ c4_empty_table.get_text = ['\n'] ∧
    c4w_table.rows ≠ [] ∧
    c4w_table.get_text
      = List.intercalate ['\n'] (c4w_table.layout.rows.map TableRow.get_text) ++ ['\n'] := by
  refine ⟨rfl, (C4_render c4_empty_table).1 rfl, by decide, (C4_render c4w_table).2 (by decide)⟩

/-- Claim C10 counterexample: after explicitly setting the width to zero
through the setter, the getter does not return the set width 0 but falls
through to the measured maximum line length (the source guards the slot
with a truthiness test, so zero behaves like unset). -/
theorem C10_counterexample :
    (c10_cell.width_set 0).width0 = some 0 ∧
      (c10_cell.width_set 0).width_get = some 2 ∧
      (c10_cell.width_set 0).width_get ≠ some 0 := by
  decide

/-- Claim C10 (amended): the width getter returns the stored width whenever
a nonzero width has been set; otherwise (width unset or zero), for a cell
with at least one block, it returns the maximum character length among the
lines obtained by splitting every block on embedded line breaks. -/
theorem C10_width_getter (c : TableCell) :
    (∀ w, c.width0 = some w → w ≠ 0 → c.width_get = some w) ∧
    ((c.width0 = Option.none ∨ c.width0 = some 0) → c.blocks ≠ [] →
      ∃ m, c.width_get = some m ∧ (∀ b ∈ c.cell_lines, b.length ≤ m) ∧
        (∃ b ∈ c.cell_lines, b.length = m)) := by
  constructor
  · intro w hw h0
    exact width_get_truthy c w hw h0
  · intro huntr hne
    rw [width_get_untruthy c huntr]
    have hlines : c.cell_lines ≠ [] := by
      unfold TableCell.cell_lines
      rw [List.flatten_ne_nil_iff]
      cases hb : c.blocks with
      | nil => exact absurd hb hne
      | cons b bs =>
        exact ⟨split_char '\n' b, by simp, split_char_ne_nil '\n' b⟩
    rcases py_max_spec (c.cell_lines.map List.length) (by simpa using hlines) with
      ⟨m, hm, hub, hmem⟩
    refine ⟨m, hm, ?_, ?_⟩
    · intro b hb
      exact hub b.length (List.mem_map.mpr ⟨b, hb, rfl⟩)
    · rcases List.mem_map.mp hmem with ⟨b, hb, rfl⟩
      exact ⟨b, hb, rfl⟩

/-- Claim C10 witness: a stored nonzero width is returned as is, and an
unset width falls through to the measured maximum. -/
theorem C10_width_getter_witness :
    ({ c10_cell with width0 := some 5 } : TableCell).width_get = some 5 ∧
    (∃ m, c10_cell.width_get = some m ∧ (∀ b ∈ c10_cell.cell_lines, b.length ≤ m) ∧
      (∃ b ∈ c10_cell.cell_lines, b.length = m)) := by
  constructor
  · exact (C10_width_getter _).1 5 rfl (by decide)
  · exact (C10_width_getter c10_cell).2 (Or.inl rfl) (by decide)

/-!  Evaluation lemmas for Python round on rationals (the kernel does not
reduce rational floors, so these are proved with norm_num). -/

theorem py_round_intCast (n : ℤ) : py_round ((n : ℚ)) = n := by
  simp only [py_round, Int.floor_intCast, sub_self]
  norm_num

theorem py_round_add_half (n : ℤ) :
    py_round ((n : ℚ) + 1 / 2) = if n % 2 = 0 then n else n + 1 := by
  have hfl : ⌊(n : ℚ) + 1 / 2⌋ = n := by
    apply Int.floor_eq_iff.mpr
    constructor
    · linarith [show (0 : ℚ) ≤ 1 / 2 by norm_num]
    · linarith [show (1 : ℚ) / 2 < 1 by norm_num]
  simp only [py_round, hfl]
  have h2 : (n : ℚ) + 1 / 2 - (n : ℤ) = 1 / 2 := by ring
  rw [h2, if_neg (by norm_num), if_neg (by norm_num)]

theorem get_em_eval (s num unit : Str) (v : ℚ)
    (hsearch : re_unit_search s = some (num, unit))
    (hparse : py_float_parse num = some (some v)) :
    get_em s = if unit ∈ EM_UNITS then .ok (py_round v)
      else .ok (py_round (v / 8)) := by
  unfold get_em
  rw [hsearch]
  show (match py_float_parse num with
    | Option.none => Except.error PyError.valueError
    | some Option.none => Except.error PyError.overflowError
    | some (some v) => if unit ∈ EM_UNITS then Except.ok (py_round v)
        else Except.ok (py_round (v / 8))) = _
  rw [hparse]

/-- Claim C6 counterexample: the spec says ties round half away from zero,
but the code uses Python round, which is half to even.  For the length
string 4px the code computes round(4 / 8) = round(0.5) = 0, while rounding
half away from zero gives 1. -/
theorem C6_counterexample :
    get_em "4px".data = .ok 0 ∧ round_half_away ((4 : ℚ) / 8) = 1 ∧
      (0 : ℤ) ≠ 1 := by
  refine ⟨?_, ?_, by decide⟩
  · rw [get_em_eval "4px".data "4".data "px".data 4 (by decide) (by decide),
      if_neg (by decide)]
    have h48 : (4 : ℚ) / 8 = ((0 : ℤ) : ℚ) + 1 / 2 := by norm_num
    rw [h48, py_round_add_half]
    rfl
  · have h48 : (4 : ℚ) / 8 = 1 / 2 := by norm_num
    rw [h48]
    unfold round_half_away
    rw [if_pos (by norm_num)]
    have : (1 : ℚ) / 2 + 1 / 2 = 1 := by norm_num
    rw [this]
    exact Int.floor_one

/-- Claim C6 (amended): for every length string the unit pattern matches
with a finite parsed numeral, the result is the numeral rounded for an
em-family unit and the numeral divided by 8 rounded otherwise, with ties
resolved half to even as in Python round (not half away from zero); the
examples 16px, 2em and -8px evaluate to 2, 2 and -1. -/
theorem C6_get_em :
    (∀ (s num unit : Str) (v : ℚ), re_unit_search s = some (num, unit) →
      py_float_parse num = some (some v) →
      get_em s = if unit ∈ EM_UNITS then .ok (py_round v)
        else .ok (py_round (v / 8))) ∧
    (∀ n : ℤ, py_round ((n : ℚ) + 1 / 2) = if n % 2 = 0 then n else n + 1) ∧
    get_em "16px".data = .ok 2 ∧ get_em "2em".data = .ok 2 ∧
    get_em "-8px".data = .ok (-1) := by
  refine ⟨get_em_eval, py_round_add_half, ?_, ?_, ?_⟩
  · rw [get_em_eval "16px".data "16".data "px".data 16 (by decide) (by decide),
      if_neg (by decide)]
    have h : (16 : ℚ) / 8 = ((2 : ℤ) : ℚ) := by norm_num
    rw [h, py_round_intCast]
  · rw [get_em_eval "2em".data "2".data "em".data 2 (by decide) (by decide),
      if_pos (by decide)]
    have h : (2 : ℚ) = ((2 : ℤ) : ℚ) := by norm_num
    rw [h, py_round_intCast]
  · rw [get_em_eval "-8px".data "-8".data "px".data (-8) (by decide) (by decide),
      if_neg (by decide)]
    have h : (-8 : ℚ) / 8 = ((-1 : ℤ) : ℚ) := by norm_num
    rw [h, py_round_intCast]

/-- Claim C6 witness: the general rule applied at the concrete string 16px,
with both pattern hypotheses discharged by evaluation. -/
theorem C6_get_em_witness :
    re_unit_search "16px".data = some ("16".data, "px".data) ∧
    py_float_parse "16".data = some (some 16) ∧
    get_em "16px".data = .ok (py_round ((16 : ℚ) / 8)) := by
  refine ⟨by decide, by decide, ?_⟩
  rw [C6_get_em.1 "16px".data "16".data "px".data 16 (by decide) (by decide),
    if_neg (by decide)]

/-- Claim C7 counterexample: the style mapper is not total.  A margin-top
directive whose numeral has 330 digits parses to float infinity, and the
subsequent round raises an OverflowError that the except-AttributeError
handler does not catch, so the exception escapes the attr_style entry
point. -/
theorem C7_counterexample :
    attr_style c7_overflow_attr default_element
      = .error PyError.overflowError := by
  decide

/-- Claim C7 (amended): applying the style mapper never raises past the
entry point except that a margin or padding length whose numeral reaches
the float overflow threshold raises an OverflowError; a directive whose
property name is not recognized leaves every field of the element
unchanged, both as a single loop step and for a whole declaration string of
unrecognized properties. -/
theorem C7_style_mapper :
    (∀ (f : Nat) (s : Str) (e : HtmlElement),
      (∃ e2, attr_style_fuel f s e = .ok e2) ∨
        attr_style_fuel f s e = .error PyError.overflowError) ∧
    (∀ (s : Str) (e : HtmlElement),
      (∃ e2, attr_style s e = .ok e2) ∨
        attr_style s e = .error PyError.overflowError) ∧
    (∀ (sub : Str → HtmlElement → Except PyError HtmlElement) (d : Str)
        (e : HtmlElement),
      (':' ∉ d ∨ lookup_handler (py_strip (split_first ':' d).1) = Option.none) →
      do_directive sub d e = .ok e) ∧
    (∀ (f : Nat) (s : Str) (e : HtmlElement),
      (∀ d ∈ split_char ';' (py_lower s),
        ':' ∉ d ∨ lookup_handler (py_strip (split_first ':' d).1) = Option.none) →
      attr_style_fuel (f + 1) s e = .ok e) := by
  have h1 : ∀ (f : Nat) (s : Str) (e : HtmlElement),
      (∃ e2, attr_style_fuel f s e = .ok e2) ∨
        attr_style_fuel f s e = .error PyError.overflowError := by
    intro f s e
    rcases attr_style_fuel_spec f s e with ⟨e2, hok, _⟩ | hoe
    · exact Or.inl ⟨e2, hok⟩
    · exact Or.inr hoe
  exact ⟨h1, fun s e => h1 _ s e, do_directive_unrecognized,
    attr_style_fuel_all_unrecognized⟩

/-- Claim C7 witness: an unrecognized property (color) leaves a concrete
element unchanged through the entry loop. -/
theorem C7_style_mapper_witness :
    (∀ d ∈ split_char ';' (py_lower "color:red".data),
      ':' ∉ d ∨ lookup_handler (py_strip (split_first ':' d).1) = Option.none) ∧
    attr_style_fuel 1 "color:red".data default_element = .ok default_element := by
  refine ⟨by decide, C7_style_mapper.2.2.2 0 "color:red".data default_element (by decide)⟩

/-- A single margin or padding directive with a value that the unit regex
does not match is skipped by attr_style: the AttributeError from the failed
group access is caught by the dispatch loop. -/
theorem attr_style_malformed_length (key value : Str) (e : HtmlElement) (f : Nat)
    (hklow : py_lower key = key) (hkcolon : ':' ∉ key) (hksemi : ';' ∉ key)
    (hl : lookup_handler (py_strip key) = some StyleHandler.margin_top ∨
      lookup_handler (py_strip key) = some StyleHandler.margin_bottom ∨
      lookup_handler (py_strip key) = some StyleHandler.padding_left)
    (hsemi : ';' ∉ py_lower value)
    (hnomatch : re_unit_search (py_strip (py_lower value)) = Option.none) :
    attr_style_fuel (f + 1) (key ++ ':' :: value) e = .ok e := by
  simp only [attr_style_fuel]
  have hcolon : Char.toLower ':' = ':' := by decide
  have hlow : py_lower (key ++ ':' :: value) = key ++ ':' :: py_lower value := by
    unfold py_lower at hklow ⊢
    rw [List.map_append, hklow, List.map_cons, hcolon]
  have hsplit : split_char ';' (key ++ ':' :: py_lower value)
      = [key ++ ':' :: py_lower value] := by
    apply split_char_of_not_mem
    intro hmem
    rcases List.mem_append.mp hmem with h1 | h1
    · exact hksemi h1
    · rcases List.mem_cons.mp h1 with h2 | h2
      · exact absurd h2 (by decide)
      · exact hsemi h2
  rw [hlow, hsplit]
  unfold run_directives
  rw [do_directive_malformed _ key (py_lower value) e hkcolon hl hnomatch]
  rfl

/-- Claim C8: a margin-top, margin-bottom, margin-before, margin-after,
padding-left or padding-start directive whose value has no number and unit
match is swallowed by the style mapper: the AttributeError raised when the
regex search returns no match is caught by the dispatch loop, the call
returns normally, and the element (in particular the target margin or
padding field) is returned unchanged. -/
theorem C8_malformed_length (key value : Str) (e : HtmlElement) (f : Nat)
    (hkey : key ∈ ["margin-top".data, "margin-bottom".data, "margin-before".data,
      "margin-after".data, "padding-left".data, "padding-start".data])
    (hsemi : ';' ∉ py_lower value)
    (hnomatch : re_unit_search (py_strip (py_lower value)) = Option.none) :
    attr_style_fuel (f + 1) (key ++ ':' :: value) e = .ok e := by
  fin_cases hkey
  · exact attr_style_malformed_length _ value e f (by decide) (by decide) (by decide)
      (Or.inl (by decide)) hsemi hnomatch
  · exact attr_style_malformed_length _ value e f (by decide) (by decide) (by decide)
      (Or.inr (Or.inl (by decide))) hsemi hnomatch
  · exact attr_style_malformed_length _ value e f (by decide) (by decide) (by decide)
      (Or.inl (by decide)) hsemi hnomatch
  · exact attr_style_malformed_length _ value e f (by decide) (by decide) (by decide)
      (Or.inr (Or.inl (by decide))) hsemi hnomatch
  · exact attr_style_malformed_length _ value e f (by decide) (by decide) (by decide)
      (Or.inr (Or.inr (by decide))) hsemi hnomatch
  · exact attr_style_malformed_length _ value e f (by decide) (by decide) (by decide)
      (Or.inr (Or.inr (by decide))) hsemi hnomatch

/-- Claim C8 witness: margin-top with the unmatched value abc leaves a
concrete element unchanged. -/
theorem C8_malformed_length_witness :
    "margin-top".data ∈ ["margin-top".data, "margin-bottom".data,
      "margin-before".data, "margin-after".data, "padding-left".data,
      "padding-start".data] ∧
    ';' ∉ py_lower "abc".data ∧
    re_unit_search (py_strip (py_lower "abc".data)) = Option.none ∧
    attr_style_fuel 1 ("margin-top".data ++ ':' :: "abc".data) default_element
      = .ok default_element := by
  exact ⟨by decide, by decide, by decide,
    C8_malformed_length "margin-top".data "abc".data default_element 0
      (by decide) (by decide) (by decide)⟩

/-- Claim C9: display none is absorbing.  The display handler refuses to
change an element whose display is already none, and the whole style
mapper, at any fuel and through the entry point, maps an element with
display none only to elements with display none. -/
theorem C9_display_sticky :
    (∀ (v : Str) (e : HtmlElement), e.display = Display.none →
      attr_display v e = e) ∧
    (∀ (f : Nat) (s : Str) (e e2 : HtmlElement), e.display = Display.none →
      attr_style_fuel f s e = .ok e2 → e2.display = Display.none) ∧
    (∀ (s : Str) (e e2 : HtmlElement), e.display = Display.none →
      attr_style s e = .ok e2 → e2.display = Display.none) := by
  have h2 : ∀ (f : Nat) (s : Str) (e e2 : HtmlElement), e.display = Display.none →
      attr_style_fuel f s e = .ok e2 → e2.display = Display.none := by
    intro f s e e2 hd hok
    rcases attr_style_fuel_spec f s e with ⟨e3, hok3, hd3⟩ | hoe
    · rw [hok] at hok3
      injection hok3 with h
      rw [h]
      exact hd3 hd
    · rw [hok] at hoe
      simp at hoe
  exact ⟨attr_display_none, h2, fun s e e2 => h2 _ s e e2⟩

/-- Claim C9 witness: a concrete element with display none is unchanged by
a block display directive, both at the handler and through the mapper. -/
theorem C9_display_sticky_witness :
    ({ default_element with display := Display.none } : HtmlElement).display
        = Display.none ∧
    attr_display "block".data { default_element with display := Display.none }
        = { default_element with display := Display.none } ∧
    attr_style "display:block".data { default_element with display := Display.none }
        = .ok { default_element with display := Display.none } ∧
    ({ default_element with display := Display.none } : HtmlElement).display
        = Display.none := by
  refine ⟨rfl, C9_display_sticky.1 "block".data _ rfl, by decide, ?_⟩
  exact C9_display_sticky.2.2 "display:block".data
    { default_element with display := Display.none }
    { default_element with display := Display.none } rfl (by decide)

/-- Claim C1: the column-width pass.  On a table whose cells all have at
least one block (as the row-height pass guarantees during rendering), the
pass preserves every row shape (no synthetic placeholder cells, short rows
untouched at indices they do not have), replaces the cell present at row i,
column j by that cell with its width set to the column width of column j on
the input table, and that column width is an upper bound of, and is either
zero or attained by, the widths of the cells present at index j. -/
theorem C1_column_width_pass (t : Table)
    (hblocks : ∀ r ∈ t.rows, ∀ c ∈ r.columns, c.blocks ≠ []) :
    (t.set_column_width.rows.map (fun r => r.columns.length)
        = t.rows.map (fun r => r.columns.length)) ∧
    (∀ (i j : Nat) (r : TableRow) (c : TableCell),
        t.rows[i]? = some r → r.columns[j]? = some c →
        t.set_column_width.tcell i j = some (c.width_set (t.col_width j))) ∧
    (∀ (i j : Nat) (r : TableRow) (c : TableCell) (w : Nat),
        t.rows[i]? = some r → r.columns[j]? = some c →
        c.width_get = some w → w ≤ t.col_width j) ∧
    (∀ j, t.col_width j = 0 ∨ ∃ (i : Nat) (r : TableRow) (c : TableCell),
        t.rows[i]? = some r ∧
        r.columns[j]? = some c ∧ c.width_get = some (t.col_width j)) := by
  refine ⟨set_column_width_len t, ?_, ?_, ?_⟩
  · intro i j r c hr hc
    exact set_column_width_tcell t i j r c hr hc
  · intro i j r c w hr hc hw
    exact col_width_ge t i j r c w hr hc hw
  · intro j
    rcases List.mem_cons.mp
        (foldl_max_mem (t.rows.filterMap
          (fun r => r.columns[j]?.bind TableCell.width_get)) 0) with h | h
    · exact Or.inl h
    · rcases List.mem_filterMap.mp h with ⟨r, hrmem, hfr⟩
      rcases List.mem_iff_getElem?.mp hrmem with ⟨i, hri⟩
      cases hcj : r.columns[j]? with
      | none => rw [hcj] at hfr; cases hfr
      | some c =>
        rw [hcj, Option.some_bind] at hfr
        exact Or.inr ⟨i, r, c, hri, hcj, hfr⟩

/-- Claim C1 witness at a ragged two-row table: the shapes are preserved
and the single cell of the short row is set to the width of column 0. -/
theorem C1_column_width_pass_witness :
    (∀ r ∈ c1w_table.rows, ∀ c ∈ r.columns, c.blocks ≠ []) ∧
    c1w_table.set_column_width.rows.map (fun r => r.columns.length) = [2, 1] ∧
    (∃ c : TableCell, c1w_table.rows[1]?.bind (fun r => r.columns[0]?) = some c ∧
      c1w_table.set_column_width.tcell 1 0
        = some (c.width_set (c1w_table.col_width 0))) := by
  have h := C1_column_width_pass c1w_table (by decide)
  refine ⟨by decide, ?_, ?_⟩
  · rw [h.1]
    decide
  · exact ⟨_, rfl, h.2.1 1 0 _ _ rfl rfl⟩

/-- Claim C3: the row-height pass grows every cell of a row to the maximum
normalized line count of that row, after which all cells of one row have
the same number of lines; and the text of a row whose cells all share one
line count h is the h same-index line groups joined by the separator, the
groups joined by line breaks, with no line of any cell lost. -/
theorem C3_row_height_pass (t : Table) :
    (∀ row ∈ t.rows, ∀ c ∈ (row.set_height).columns,
        c.blocks.length =
          ((row.columns.map TableCell.normalize_blocks).map Prod.snd).foldl Nat.max 0) ∧
    (∀ row ∈ t.set_row_height.rows, ∀ c1 ∈ row.columns, ∀ c2 ∈ row.columns,
        c1.blocks.length = c2.blocks.length) ∧
    (∀ (r : TableRow) (h : Nat), r.columns ≠ [] →
        (∀ c ∈ r.columns, c.blocks.length = h) →
        r.get_text = List.intercalate ['\n'] ((List.range h).map (fun i =>
          List.intercalate r.cell_separator
            (r.columns.map (fun c => c.blocks.getD i []))))) := by
  refine ⟨?_, ?_, ?_⟩
  · intro row _ c hc
    exact (row_set_height_spec row c hc).2
  · intro row hrow c1 hc1 c2 hc2
    have hrow2 : row ∈ t.rows.map TableRow.set_height := by
      simpa [Table.set_row_height] using hrow
    rcases List.mem_map.mp hrow2 with ⟨row0, _, rfl⟩
    rw [(row_set_height_spec row0 c1 hc1).2, (row_set_height_spec row0 c2 hc2).2]
  · intro r h hne hall
    unfold TableRow.get_text pyzip
    have hlen : pyzip_len (r.columns.map TableCell.blocks) = h := by
      apply pyzip_len_const _ h (by simpa using hne)
      intro l hl
      rcases List.mem_map.mp hl with ⟨c, hc, rfl⟩
      exact hall c hc
    rw [hlen]
    simp only [List.map_map]
    rfl

/-- Claim C3 witness: a row of two 2-line cells renders as the two line
ranks joined by the separator and a line break. -/
theorem C3_row_height_pass_witness :
    c3w_row.columns ≠ [] ∧ (∀ c ∈ c3w_row.columns, c.blocks.length = 2) ∧
    c3w_row.get_text = List.intercalate ['\n'] ((List.range 2).map (fun i =>
      List.intercalate c3w_row.cell_separator
        (c3w_row.columns.map (fun c => c.blocks.getD i [])))) := by
  refine ⟨by decide, by decide, ?_⟩
  exact (C3_row_height_pass
    { rows := [], left_margin_len := 0, cell_separator := [] }).2.2
    c3w_row 2 (by decide) (by decide)

/-- Claim C5: rendering is idempotent.  Invoking Table.get_text a second
time, on the table state the first invocation leaves behind, produces the
same text: re-normalizing single-line blocks, re-setting a reached height
and re-applying a recorded width change no text content. -/
theorem C5_render_idempotent (t : Table) :
    t.get_text_state.get_text = t.get_text := by
  unfold Table.get_text_state
  by_cases h : t.rows.isEmpty
  · rw [if_pos h]
  · rw [if_neg h]
    unfold Table.get_text
    have hlen := layout_rows_length t
    have hlt : t.layout.rows.isEmpty = false := by
      cases hr : t.layout.rows with
      | nil =>
        rw [hr] at hlen
        cases hrt : t.rows with
        | nil => rw [hrt] at h; exact absurd rfl h
        | cons a l => rw [hrt] at hlen; simp at hlen
      | cons a l => rfl
    rw [hlt]
    simp only [Bool.false_eq_true, if_false, h]
    rw [show t.layout.layout = t.layout.set_row_height.set_column_width from rfl]
    rw [layout_srh_id]
    have := layout_idempotent_render t
    rw [show t.layout.layout = t.layout.set_row_height.set_column_width from rfl,
      layout_srh_id] at this
    rw [this]
